import Mathlib

set_option maxRecDepth 40000

/-!
# Verification of the ppt-creator DSL pipeline (`src/lib/dsl-parser.ts`)

Shallow embedding of the repair–normalize–paginate pipeline of the
repository: the content-block data model (`src/types/slide-dsl.ts`), the
height estimator `getBlockHeight`, the two-phase splitter
(`splitContentBlock` / `splitByContentSize` / `autoSplitSlides`), the block
normalizer `normalizeContentBlock` with its markdown-table fallback
`parseMarkdownTable`, and the lenient decoder `parseDSLLenient` with its
JSON repair chain (`cleanJsonString`, `tryFixJson`, `tryFixTruncatedJson`).

Model conventions, used consistently below:
* Heights are measured in hundredths of an inch (`Nat`): every numeric
  constant in the source (0.35, 4.2, 0.15, …) is an exact multiple of 0.01,
  so the source's real-valued arithmetic (`x * 0.35`, `> 4.2`, `< 0.8`,
  `max`, `min`, `+`) is embedded exactly by integer arithmetic on the
  values scaled by 100 (idealizing IEEE doubles as reals, as the spec does).
* `string.length` of JavaScript (UTF-16 units) is modelled by
  `String.length` (code points); they agree on all non-astral text.
* String manipulation is performed on `List Char` by structural recursion
  (so that every definition evaluates inside the kernel); a JavaScript
  string value is a Lean `String`.
* JavaScript truthiness tests on optional strings (`block.caption ? … : …`)
  are modelled by `jsTruthyStr`: `none` and `some ""` are falsy.
-/

/-- Emphasis tag of a paragraph block (`'normal' | 'highlight' | 'muted'`). -/
inductive Emphasis
  | normal
  | highlight
  | muted
deriving DecidableEq

/-- The five slide layouts of `SlideLayout` in `src/types/slide-dsl.ts`
(`section` is spelled `sectionPage` because `section` is a Lean keyword). -/
inductive SlideLayout
  | titleOnly
  | titleContent
  | twoColumn
  | sectionPage
  | comparison
deriving DecidableEq

/-- The closed six-variant `ContentBlock` union of `src/types/slide-dsl.ts`. -/
inductive ContentBlock
  | paragraph (text : String) (emphasis : Option Emphasis)
  | bullets (items : List String)
  | numbered (items : List String)
  | code (language : String) (lines : List String) (caption : Option String)
  | table (headers : List String) (rows : List (List String)) (caption : Option String)
  | quote (text : String) (author : Option String)
deriving DecidableEq

/-- `SlideDSL` of `src/types/slide-dsl.ts`; optional fields are `Option`s. -/
structure SlideDSL where
  layout : SlideLayout
  title : Option String := none
  subtitle : Option String := none
  content : Option (List ContentBlock) := none
  leftContent : Option (List ContentBlock) := none
  rightContent : Option (List ContentBlock) := none
  notes : Option String := none
deriving DecidableEq

/-- `PresentationDSL` of `src/types/slide-dsl.ts`. -/
structure PresentationDSL where
  slides : List SlideDSL
deriving DecidableEq

namespace DSL_LIMITS

/-- `DSL_LIMITS.MAX_CONTENT_BLOCKS_PER_SLIDE` -/
def MAX_CONTENT_BLOCKS_PER_SLIDE : Nat := 4

/-- `DSL_LIMITS.MAX_CONTENT_BLOCKS_PER_COLUMN` -/
def MAX_CONTENT_BLOCKS_PER_COLUMN : Nat := 3

/-- `DSL_LIMITS.MAX_TITLE_LENGTH` -/
def MAX_TITLE_LENGTH : Nat := 100

/-- `DSL_LIMITS.MAX_SUBTITLE_LENGTH` -/
def MAX_SUBTITLE_LENGTH : Nat := 150

/-- `DSL_LIMITS.MAX_PARAGRAPH_LENGTH` -/
def MAX_PARAGRAPH_LENGTH : Nat := 300

/-- `DSL_LIMITS.MAX_LIST_ITEMS` -/
def MAX_LIST_ITEMS : Nat := 6

/-- `DSL_LIMITS.MAX_LIST_ITEM_LENGTH` -/
def MAX_LIST_ITEM_LENGTH : Nat := 100

/-- `DSL_LIMITS.MAX_CODE_LINES` -/
def MAX_CODE_LINES : Nat := 15

/-- `DSL_LIMITS.MAX_TABLE_COLUMNS` -/
def MAX_TABLE_COLUMNS : Nat := 5

/-- `DSL_LIMITS.MAX_TABLE_ROWS` -/
def MAX_TABLE_ROWS : Nat := 6

/-- `DSL_LIMITS.MAX_QUOTE_LENGTH` -/
def MAX_QUOTE_LENGTH : Nat := 200

end DSL_LIMITS

/-- JavaScript truthiness of an optional string (`undefined` and `''` are
falsy, every other string truthy). -/
def jsTruthyStr : Option String → Bool
  | none => false
  | some s => s != ""

/-- ASCII whitespace, the fragment of JavaScript `\s` relevant to this model. -/
def jsWhitespace (c : Char) : Bool :=
  c = ' ' ∨ c = '\t' ∨ c = '\n' ∨ c = '\r' ∨ c = '\x0b' ∨ c = '\x0c'

/-- JavaScript `String.prototype.trim`, on the character list. -/
def trimChars (cs : List Char) : List Char :=
  ((cs.dropWhile jsWhitespace).reverse.dropWhile jsWhitespace).reverse

/-- JavaScript `String.prototype.trim` (kernel-evaluable, unlike `String.trim`). -/
def jsTrim (s : String) : String := ⟨trimChars s.data⟩

/-- `MAX_CONTENT_HEIGHT = 4.2` inches, in hundredths of an inch. -/
def MAX_CONTENT_HEIGHT : Nat := 420

/-- `MIN_CONTENT_HEIGHT = 0.8` inches, in hundredths of an inch. -/
def MIN_CONTENT_HEIGHT : Nat := 80

/-- `BLOCK_SPACING = 0.15` inches, in hundredths of an inch. -/
def BLOCK_SPACING : Nat := 15

/-- `getBlockHeight` of `src/lib/dsl-parser.ts` (lines 320–351), in
hundredths of an inch.  `Math.ceil (n / d)` on naturals is `(n + d - 1) / d`. -/
def getBlockHeight : ContentBlock → Nat
  | .paragraph text _ =>
      let lines := (text.length + 49) / 50
      max 40 (lines * 25)
  | .bullets items => items.length * 35
  | .numbered items => items.length * 35
  | .table _ rows caption =>
      let tableHeight := (rows.length + 1) * 35
      if jsTruthyStr caption then tableHeight + 30 else tableHeight
  | .code _ lines caption =>
      let codeHeight := min (lines.length * 16 + 24) 350
      if jsTruthyStr caption then codeHeight + 30 else codeHeight
  | .quote text author =>
      let quoteLines := (text.length + 44) / 45
      max 50 (quoteLines * 25) + (if jsTruthyStr author then 35 else 10)

/-- `splitCodeBlock` of `src/lib/dsl-parser.ts` (lines 452–476): the loop
`for i in [0, totalParts)` with `slice(start, start + LIMIT)` is
`(List.range totalParts).map (fun i => (lines.drop (i * LIMIT)).take LIMIT)`. -/
def splitCodeBlock (language : String) (lines : List String) (caption : Option String) :
    List ContentBlock :=
  if lines.length ≤ DSL_LIMITS.MAX_CODE_LINES then [.code language lines caption]
  else
    let totalParts := (lines.length + DSL_LIMITS.MAX_CODE_LINES - 1) / DSL_LIMITS.MAX_CODE_LINES
    (List.range totalParts).map fun i =>
      .code language ((lines.drop (i * DSL_LIMITS.MAX_CODE_LINES)).take DSL_LIMITS.MAX_CODE_LINES)
        (if 1 < totalParts
         then some (jsTrim ((caption.getD "") ++ " (" ++ toString (i + 1) ++ "/"
                      ++ toString totalParts ++ ")"))
         else caption)

/-- `splitListBlock` of `src/lib/dsl-parser.ts` (lines 481–504); the
`'bullets' | 'numbered'` type tag is the `numbered : Bool` flag. -/
def splitListBlock (numbered : Bool) (items : List String) : List ContentBlock :=
  if items.length ≤ DSL_LIMITS.MAX_LIST_ITEMS then
    [if numbered then .numbered items else .bullets items]
  else
    let totalParts := (items.length + DSL_LIMITS.MAX_LIST_ITEMS - 1) / DSL_LIMITS.MAX_LIST_ITEMS
    (List.range totalParts).map fun i =>
      let partItems := (items.drop (i * DSL_LIMITS.MAX_LIST_ITEMS)).take DSL_LIMITS.MAX_LIST_ITEMS
      if numbered then .numbered partItems else .bullets partItems

/-- `splitTableBlock` of `src/lib/dsl-parser.ts` (lines 509–533). -/
def splitTableBlock (headers : List String) (rows : List (List String))
    (caption : Option String) : List ContentBlock :=
  if rows.length ≤ DSL_LIMITS.MAX_TABLE_ROWS then [.table headers rows caption]
  else
    let totalParts := (rows.length + DSL_LIMITS.MAX_TABLE_ROWS - 1) / DSL_LIMITS.MAX_TABLE_ROWS
    (List.range totalParts).map fun i =>
      .table headers ((rows.drop (i * DSL_LIMITS.MAX_TABLE_ROWS)).take DSL_LIMITS.MAX_TABLE_ROWS)
        (if 1 < totalParts
         then some (jsTrim ((caption.getD "") ++ " (" ++ toString (i + 1) ++ "/"
                      ++ toString totalParts ++ ")"))
         else caption)

/-- `splitContentBlock` of `src/lib/dsl-parser.ts` (lines 434–447). -/
def splitContentBlock : ContentBlock → List ContentBlock
  | .code language lines caption => splitCodeBlock language lines caption
  | .bullets items => splitListBlock false items
  | .numbered items => splitListBlock true items
  | .table headers rows caption => splitTableBlock headers rows caption
  | b => [b]

/-- One iteration of the block-distribution loop of `splitByContentSize`
(lines 373–395); the state is `(pages, currentBlocks, currentHeight)`. -/
def packStep (st : List (List ContentBlock) × List ContentBlock × Nat)
    (block : ContentBlock) : List (List ContentBlock) × List ContentBlock × Nat :=
  let pages := st.1
  let currentBlocks := st.2.1
  let currentHeight := st.2.2
  let blockHeight := getBlockHeight block
  if currentBlocks.isEmpty then (pages, [block], blockHeight)
  else
    let newHeight := currentHeight + BLOCK_SPACING + blockHeight
    if MAX_CONTENT_HEIGHT < newHeight then (pages ++ [currentBlocks], [block], blockHeight)
    else (pages, currentBlocks ++ [block], newHeight)

/-- The first step of `splitByContentSize` (lines 368–399): distribute the
blocks over pages in order, then push the final non-empty page. -/
def packPages (blocks : List ContentBlock) : List (List ContentBlock) :=
  let st := blocks.foldl packStep ([], [], 0)
  if st.2.1.isEmpty then st.1 else st.1 ++ [st.2.1]

/-- The `reduce` computing `lastPageHeight` in `splitByContentSize`
(lines 405–408): `sum + getBlockHeight b + (i > 0 ? BLOCK_SPACING : 0)`. -/
def pageHeightAux : List ContentBlock → Nat → Nat → Nat
  | [], _, sum => sum
  | b :: bs, i, sum =>
      pageHeightAux bs (i + 1) (sum + getBlockHeight b + (if 0 < i then BLOCK_SPACING else 0))

/-- Total estimated height of one page, blocks plus inter-block spacing. -/
def pageHeight (page : List ContentBlock) : Nat := pageHeightAux page 0 0

/-- The merge-back step of `splitByContentSize` (lines 402–417): if there is
more than one page and the last page is below `MIN_CONTENT_HEIGHT`, its
blocks are appended to the second-to-last page and the last page is dropped. -/
def mergeBack (pages : List (List ContentBlock)) : List (List ContentBlock) :=
  if 1 < pages.length then
    let lastPage := pages.getLastD []
    if pageHeight lastPage < MIN_CONTENT_HEIGHT then
      let prevPage := pages.dropLast.getLastD []
      pages.dropLast.dropLast ++ [prevPage ++ lastPage]
    else pages
  else pages

/-- `splitByContentSize` of `src/lib/dsl-parser.ts` (lines 362–429). -/
def splitByContentSize (slide : SlideDSL) (blocks : List ContentBlock) : List SlideDSL :=
  if blocks.length ≤ 1 then [{ slide with content := some blocks }]
  else
    let pages := mergeBack (packPages blocks)
    if pages.length = 1 then [{ slide with content := some (pages.getD 0 []) }]
    else pages.enum.map fun p =>
      { slide with
        title := some ((slide.title.getD "") ++ " (" ++ toString (p.1 + 1) ++ "/"
                        ++ toString pages.length ++ ")")
        content := some p.2 }

/-- `splitSingleSlide` of `src/lib/dsl-parser.ts` (lines 289–314). -/
def splitSingleSlide (slide : SlideDSL) : List SlideDSL :=
  if slide.layout = .titleOnly ∨ slide.layout = .sectionPage then [slide]
  else if slide.layout = .twoColumn ∨ slide.layout = .comparison then [slide]
  else
    match slide.content with
    | none => [slide]
    | some content =>
      if content.isEmpty then [slide]
      else splitByContentSize slide (content.flatMap splitContentBlock)

/-- `autoSplitSlides` of `src/lib/dsl-parser.ts` (lines 275–284). -/
def autoSplitSlides (presentation : PresentationDSL) : PresentationDSL :=
  ⟨presentation.slides.flatMap splitSingleSlide⟩

/-- `truncatePresentation` (lines 539–543) delegates to `autoSplitSlides`. -/
def truncatePresentation (presentation : PresentationDSL) : PresentationDSL :=
  autoSplitSlides presentation

/-- A leaf content item in the sense of the spec's no-data-loss property:
a paragraph text, one bullet/numbered item, one code line, one table row,
or a quote text.  Captions, headers and titles are not leaves. -/
inductive Leaf
  | text (s : String)
  | row (cells : List String)
deriving DecidableEq

/-- The leaves of one content block, in order. -/
def blockLeaves : ContentBlock → List Leaf
  | .paragraph text _ => [.text text]
  | .bullets items => items.map .text
  | .numbered items => items.map .text
  | .code _ lines _ => lines.map .text
  | .table _ rows _ => rows.map .row
  | .quote text _ => [.text text]

/-- The leaves of a slide's `content` array, in order. -/
def slideLeaves (s : SlideDSL) : List Leaf := (s.content.getD []).flatMap blockLeaves

/-! ## Chunking lemmas

The three oversized-block splitters all cut a list into
`ceil (n / m)` consecutive chunks `(l.drop (i * m)).take m`. -/

/-- Concatenating the `ceil (length / m)` chunks of size `m` restores the list. -/
theorem range_chunk_flatMap {α : Type} (m : Nat) (hm : 0 < m) (l : List α) :
    (List.range ((l.length + m - 1) / m)).flatMap (fun i => (l.drop (i * m)).take m) = l := by
  by_cases h0 : l = []
  · subst h0
    have : (0 + m - 1) / m = 0 := Nat.div_eq_of_lt (by omega)
    simp [this]
  · by_cases hlem : l.length ≤ m
    · have hpos : 0 < l.length := List.length_pos.mpr h0
      have hk : (l.length + m - 1) / m = 1 := by
        apply Nat.div_eq_of_lt_le <;> omega
      rw [hk, show List.range 1 = [0] from by simp [List.range_succ]]
      simp [List.take_of_length_le hlem]
    · have hlt : m < l.length := by omega
      have hk : (l.length + m - 1) / m = ((l.drop m).length + m - 1) / m + 1 := by
        rw [List.length_drop, ← Nat.add_div_right _ hm]
        congr 1
        omega
      have hrec := range_chunk_flatMap m hm (l.drop m)
      rw [hk, List.range_succ_eq_map, List.flatMap_cons, List.flatMap_map]
      have hbody : ∀ i : Nat, (l.drop (Nat.succ i * m)).take m
          = ((l.drop m).drop (i * m)).take m := by
        intro i
        rw [List.drop_drop, Nat.succ_mul]
        congr 2
        omega
      simp only [hbody, Nat.zero_mul, List.drop_zero, hrec]
      exact List.take_append_drop m l
  termination_by l.length
  decreasing_by simp [List.length_drop]; omega

/-! ## Page height and the greedy packing invariant -/

/-- Spacing-prefixed height of the tail blocks of a page. -/
def heightTail : List ContentBlock → Nat
  | [] => 0
  | b :: bs => BLOCK_SPACING + getBlockHeight b + heightTail bs

/-- Total estimated height of a page: the sum of `getBlockHeight` over its
blocks plus one `BLOCK_SPACING` between each consecutive pair. -/
def heightSum : List ContentBlock → Nat
  | [] => 0
  | b :: bs => getBlockHeight b + heightTail bs

theorem heightTail_append (xs : List ContentBlock) (b : ContentBlock) :
    heightTail (xs ++ [b]) = heightTail xs + (BLOCK_SPACING + getBlockHeight b) := by
  induction xs with
  | nil => simp [heightTail]
  | cons x xs ih => simp [heightTail, ih]; omega

theorem heightSum_append_one {p : List ContentBlock} (b : ContentBlock) (hp : p ≠ []) :
    heightSum (p ++ [b]) = heightSum p + (BLOCK_SPACING + getBlockHeight b) := by
  cases p with
  | nil => exact absurd rfl hp
  | cons x xs => simp [heightSum, heightTail_append]; omega

theorem heightSum_singleton (b : ContentBlock) : heightSum [b] = getBlockHeight b := by
  simp [heightSum, heightTail]

/-- The `reduce` in the source computes exactly `heightSum`. -/
theorem pageHeightAux_spec (bs : List ContentBlock) :
    ∀ i s, 0 < i → pageHeightAux bs i s = s + heightTail bs := by
  induction bs with
  | nil => intro i s _; simp [pageHeightAux, heightTail]
  | cons b bs ih =>
    intro i s hi
    have : (if 0 < i then BLOCK_SPACING else 0) = BLOCK_SPACING := if_pos hi
    simp only [pageHeightAux, this, heightTail]
    rw [ih (i + 1) _ (by omega)]
    omega

theorem pageHeight_eq_heightSum (p : List ContentBlock) : pageHeight p = heightSum p := by
  cases p with
  | nil => rfl
  | cons b bs =>
    have h1 : pageHeight (b :: bs) = pageHeightAux bs 1 (0 + getBlockHeight b + 0) := by
      simp [pageHeight, pageHeightAux]
    rw [h1, pageHeightAux_spec bs 1 _ (by omega)]
    simp only [heightSum]
    omega

/-- A page the greedy pass may emit: either a single block (always accepted)
or within the `MAX_CONTENT_HEIGHT` budget. -/
def goodPage (p : List ContentBlock) : Prop :=
  p.length = 1 ∨ heightSum p ≤ MAX_CONTENT_HEIGHT

/-- Invariant of the block-distribution fold: the accumulated pages plus the
current page always hold exactly the blocks consumed so far, in order; every
accumulated page and the current page are `goodPage`; and the running height
is `heightSum` of the current page. -/
theorem packFold (blocks : List ContentBlock) :
    ∀ pages cur h, h = heightSum cur → (∀ p ∈ pages, goodPage p) → goodPage cur →
    ((blocks.foldl packStep (pages, cur, h)).1.flatten
        ++ (blocks.foldl packStep (pages, cur, h)).2.1
      = pages.flatten ++ (cur ++ blocks)) ∧
    (∀ p ∈ (blocks.foldl packStep (pages, cur, h)).1, goodPage p) ∧
    goodPage (blocks.foldl packStep (pages, cur, h)).2.1 ∧
    (blocks.foldl packStep (pages, cur, h)).2.2
      = heightSum (blocks.foldl packStep (pages, cur, h)).2.1 := by
  induction blocks with
  | nil =>
    intro pages cur h hh hg hc
    exact ⟨by simp, hg, hc, hh⟩
  | cons b bs ih =>
    intro pages cur h hh hg hc
    rw [List.foldl_cons]
    by_cases hcur : cur.isEmpty
    · have hc0 : cur = [] := List.isEmpty_iff.mp hcur
      subst hc0
      have hstep : packStep (pages, [], h) b = (pages, [b], getBlockHeight b) := by
        simp [packStep]
      rw [hstep]
      have := ih pages [b] (getBlockHeight b) (heightSum_singleton b).symm hg (Or.inl rfl)
      refine ⟨?_, this.2.1, this.2.2.1, this.2.2.2⟩
      rw [this.1]
      simp
    · have hcne : cur ≠ [] := by
        intro e; subst e; simp at hcur
      by_cases hover : MAX_CONTENT_HEIGHT < h + BLOCK_SPACING + getBlockHeight b
      · have hstep : packStep (pages, cur, h) b
            = (pages ++ [cur], [b], getBlockHeight b) := by
          simp only [packStep]
          rw [if_neg (by simpa using hcur), if_pos hover]
        rw [hstep]
        have hg2 : ∀ p ∈ pages ++ [cur], goodPage p := by
          intro p hp
          rcases List.mem_append.mp hp with h1 | h1
          · exact hg p h1
          · rw [List.mem_singleton.mp h1]; exact hc
        have := ih (pages ++ [cur]) [b] (getBlockHeight b)
          (heightSum_singleton b).symm hg2 (Or.inl rfl)
        refine ⟨?_, this.2.1, this.2.2.1, this.2.2.2⟩
        rw [this.1]
        simp
      · have hstep : packStep (pages, cur, h) b
            = (pages, cur ++ [b], h + BLOCK_SPACING + getBlockHeight b) := by
          simp only [packStep]
          rw [if_neg (by simpa using hcur), if_neg hover]
        rw [hstep]
        have hh2 : h + BLOCK_SPACING + getBlockHeight b = heightSum (cur ++ [b]) := by
          rw [heightSum_append_one b hcne, ← hh]; omega
        have hc2 : goodPage (cur ++ [b]) := by
          right
          rw [← hh2]
          omega
        have := ih pages (cur ++ [b]) _ hh2 hg hc2
        refine ⟨?_, this.2.1, this.2.2.1, this.2.2.2⟩
        rw [this.1]
        simp

theorem goodPage_nil : goodPage [] := by
  right
  simp [heightSum, MAX_CONTENT_HEIGHT]

/-- The greedy pass emits exactly the input blocks, in order. -/
theorem packPages_flatten (blocks : List ContentBlock) :
    (packPages blocks).flatten = blocks := by
  have h := packFold blocks [] [] 0 rfl (by simp) goodPage_nil
  unfold packPages
  by_cases hemp : (blocks.foldl packStep ([], [], 0)).2.1.isEmpty
  · have h0 : (blocks.foldl packStep ([], [], 0)).2.1 = [] := List.isEmpty_iff.mp hemp
    rw [if_pos hemp]
    have := h.1
    rw [h0] at this
    simpa using this
  · rw [if_neg hemp]
    have := h.1
    simpa using this

/-- Every page the greedy pass emits is a `goodPage`. -/
theorem packPages_good (blocks : List ContentBlock) :
    ∀ p ∈ packPages blocks, goodPage p := by
  have h := packFold blocks [] [] 0 rfl (by simp) goodPage_nil
  intro p hp
  unfold packPages at hp
  by_cases hemp : (blocks.foldl packStep ([], [], 0)).2.1.isEmpty
  · rw [if_pos hemp] at hp
    exact h.2.1 p hp
  · rw [if_neg hemp] at hp
    rcases List.mem_append.mp hp with h1 | h1
    · exact h.2.1 p h1
    · rw [List.mem_singleton.mp h1]
      exact h.2.2.1

/-! ## Merge-back lemmas -/

theorem dropLast_append_getLastD {α : Type} (l : List α) (d : α) (h : l ≠ []) :
    l.dropLast ++ [l.getLastD d] = l := by
  rw [List.getLastD_eq_getLast?, List.getLast?_eq_getLast l h]
  exact List.dropLast_append_getLast h

theorem list_decomp_two {α : Type} (l : List α) (d : α) (h : 1 < l.length) :
    l.dropLast.dropLast ++ [l.dropLast.getLastD d, l.getLastD d] = l := by
  have h1 : l ≠ [] := by
    intro e; subst e; simp at h
  have h2 : l.dropLast ≠ [] := by
    intro e
    have := List.length_dropLast l
    rw [e] at this
    simp at this
    omega
  calc l.dropLast.dropLast ++ [l.dropLast.getLastD d, l.getLastD d]
      = (l.dropLast.dropLast ++ [l.dropLast.getLastD d]) ++ [l.getLastD d] := by simp
    _ = l.dropLast ++ [l.getLastD d] := by rw [dropLast_append_getLastD _ _ h2]
    _ = l := dropLast_append_getLastD _ _ h1

/-- The two branches of `mergeBack`, as rewrite rules. -/
theorem mergeBack_of_merge (pages : List (List ContentBlock)) (h : 1 < pages.length)
    (hmin : pageHeight (pages.getLastD []) < MIN_CONTENT_HEIGHT) :
    mergeBack pages
      = pages.dropLast.dropLast ++ [pages.dropLast.getLastD [] ++ pages.getLastD []] := by
  unfold mergeBack
  rw [if_pos h]
  exact if_pos hmin

theorem mergeBack_of_keep (pages : List (List ContentBlock))
    (h : ¬ 1 < pages.length ∨ ¬ pageHeight (pages.getLastD []) < MIN_CONTENT_HEIGHT) :
    mergeBack pages = pages := by
  unfold mergeBack
  rcases h with h | h
  · exact if_neg h
  · by_cases h1 : 1 < pages.length
    · rw [if_pos h1]
      exact if_neg h
    · exact if_neg h1

/-- Merging the last page back never changes the emitted block sequence. -/
theorem mergeBack_flatten (pages : List (List ContentBlock)) :
    (mergeBack pages).flatten = pages.flatten := by
  by_cases h : 1 < pages.length
  · by_cases hmin : pageHeight (pages.getLastD []) < MIN_CONTENT_HEIGHT
    · rw [mergeBack_of_merge pages h hmin]
      conv_rhs => rw [← list_decomp_two pages [] h]
      simp
    · rw [mergeBack_of_keep pages (Or.inr hmin)]
  · rw [mergeBack_of_keep pages (Or.inl h)]

/-- Every page of the merged result except the last one is an untouched
greedy page. -/
theorem mergeBack_dropLast_mem (pages : List (List ContentBlock))
    (p : List ContentBlock) (hp : p ∈ (mergeBack pages).dropLast) : p ∈ pages := by
  by_cases h : 1 < pages.length
  · by_cases hmin : pageHeight (pages.getLastD []) < MIN_CONTENT_HEIGHT
    · rw [mergeBack_of_merge pages h hmin, List.dropLast_concat] at hp
      exact List.Sublist.mem (List.Sublist.mem hp (List.dropLast_sublist _))
        (List.dropLast_sublist _)
    · rw [mergeBack_of_keep pages (Or.inr hmin)] at hp
      exact List.Sublist.mem hp (List.dropLast_sublist _)
  · rw [mergeBack_of_keep pages (Or.inl h)] at hp
    exact List.Sublist.mem hp (List.dropLast_sublist _)

/-! ## Phase A: oversized-block splitting preserves leaves -/

theorem flatMap_flatten {α β : Type} (L : List (List α)) (g : α → List β) :
    L.flatten.flatMap g = L.flatMap (fun p => p.flatMap g) := by
  induction L with
  | nil => simp
  | cons p L ih => simp [List.flatMap_append, ih]

/-- Splitting one block and flattening its leaves gives back the block's
leaves: Phase A never drops, duplicates or reorders a leaf. -/
theorem splitContentBlock_leaves (b : ContentBlock) :
    (splitContentBlock b).flatMap blockLeaves = blockLeaves b := by
  cases b with
  | paragraph t e => simp [splitContentBlock, blockLeaves]
  | quote t a => simp [splitContentBlock, blockLeaves]
  | bullets its =>
    show (splitListBlock false its).flatMap blockLeaves = _
    unfold splitListBlock
    by_cases h : its.length ≤ DSL_LIMITS.MAX_LIST_ITEMS
    · rw [if_pos h]
      simp [blockLeaves]
    · rw [if_neg h, List.flatMap_map]
      simp only [Bool.false_eq_true, if_false, blockLeaves]
      rw [← List.map_flatMap]
      rw [range_chunk_flatMap _ (by norm_num [DSL_LIMITS.MAX_LIST_ITEMS, DSL_LIMITS.MAX_CODE_LINES, DSL_LIMITS.MAX_TABLE_ROWS]) its]
  | numbered its =>
    show (splitListBlock true its).flatMap blockLeaves = _
    unfold splitListBlock
    by_cases h : its.length ≤ DSL_LIMITS.MAX_LIST_ITEMS
    · rw [if_pos h]
      simp [blockLeaves]
    · rw [if_neg h, List.flatMap_map]
      simp only [if_true, blockLeaves]
      rw [← List.map_flatMap]
      rw [range_chunk_flatMap _ (by norm_num [DSL_LIMITS.MAX_LIST_ITEMS, DSL_LIMITS.MAX_CODE_LINES, DSL_LIMITS.MAX_TABLE_ROWS]) its]
  | code lang lines caption =>
    show (splitCodeBlock lang lines caption).flatMap blockLeaves = _
    unfold splitCodeBlock
    by_cases h : lines.length ≤ DSL_LIMITS.MAX_CODE_LINES
    · rw [if_pos h]
      simp [blockLeaves]
    · rw [if_neg h, List.flatMap_map]
      simp only [blockLeaves]
      rw [← List.map_flatMap]
      rw [range_chunk_flatMap _ (by norm_num [DSL_LIMITS.MAX_LIST_ITEMS, DSL_LIMITS.MAX_CODE_LINES, DSL_LIMITS.MAX_TABLE_ROWS]) lines]
  | table hs rows caption =>
    show (splitTableBlock hs rows caption).flatMap blockLeaves = _
    unfold splitTableBlock
    by_cases h : rows.length ≤ DSL_LIMITS.MAX_TABLE_ROWS
    · rw [if_pos h]
      simp [blockLeaves]
    · rw [if_neg h, List.flatMap_map]
      simp only [blockLeaves]
      rw [← List.map_flatMap]
      rw [range_chunk_flatMap _ (by norm_num [DSL_LIMITS.MAX_LIST_ITEMS, DSL_LIMITS.MAX_CODE_LINES, DSL_LIMITS.MAX_TABLE_ROWS]) rows]

/-- The oversized branch of `splitListBlock`, as an explicit map. -/
theorem splitListBlock_oversized (numbered : Bool) (its : List String)
    (h : DSL_LIMITS.MAX_LIST_ITEMS < its.length) :
    splitListBlock numbered its
      = (List.range
          ((its.length + DSL_LIMITS.MAX_LIST_ITEMS - 1) / DSL_LIMITS.MAX_LIST_ITEMS)).map
          (fun i =>
            if numbered
            then ContentBlock.numbered
              ((its.drop (i * DSL_LIMITS.MAX_LIST_ITEMS)).take DSL_LIMITS.MAX_LIST_ITEMS)
            else ContentBlock.bullets
              ((its.drop (i * DSL_LIMITS.MAX_LIST_ITEMS)).take DSL_LIMITS.MAX_LIST_ITEMS)) := by
  unfold splitListBlock
  rw [if_neg (by omega)]

/-- The oversized branch of `splitCodeBlock`, as an explicit map. -/
theorem splitCodeBlock_oversized (lang : String) (lines : List String)
    (caption : Option String) (h : DSL_LIMITS.MAX_CODE_LINES < lines.length) :
    splitCodeBlock lang lines caption
      = (List.range
          ((lines.length + DSL_LIMITS.MAX_CODE_LINES - 1) / DSL_LIMITS.MAX_CODE_LINES)).map
          (fun i =>
            ContentBlock.code lang
              ((lines.drop (i * DSL_LIMITS.MAX_CODE_LINES)).take DSL_LIMITS.MAX_CODE_LINES)
              (if 1 < (lines.length + DSL_LIMITS.MAX_CODE_LINES - 1) / DSL_LIMITS.MAX_CODE_LINES
               then some (jsTrim ((caption.getD "") ++ " (" ++ toString (i + 1) ++ "/"
                 ++ toString ((lines.length + DSL_LIMITS.MAX_CODE_LINES - 1)
                                / DSL_LIMITS.MAX_CODE_LINES) ++ ")"))
               else caption)) := by
  unfold splitCodeBlock
  rw [if_neg (by omega)]

/-- The oversized branch of `splitTableBlock`, as an explicit map. -/
theorem splitTableBlock_oversized (hs : List String) (rows : List (List String))
    (caption : Option String) (h : DSL_LIMITS.MAX_TABLE_ROWS < rows.length) :
    splitTableBlock hs rows caption
      = (List.range
          ((rows.length + DSL_LIMITS.MAX_TABLE_ROWS - 1) / DSL_LIMITS.MAX_TABLE_ROWS)).map
          (fun i =>
            ContentBlock.table hs
              ((rows.drop (i * DSL_LIMITS.MAX_TABLE_ROWS)).take DSL_LIMITS.MAX_TABLE_ROWS)
              (if 1 < (rows.length + DSL_LIMITS.MAX_TABLE_ROWS - 1) / DSL_LIMITS.MAX_TABLE_ROWS
               then some (jsTrim ((caption.getD "") ++ " (" ++ toString (i + 1) ++ "/"
                 ++ toString ((rows.length + DSL_LIMITS.MAX_TABLE_ROWS - 1)
                                / DSL_LIMITS.MAX_TABLE_ROWS) ++ ")"))
               else caption)) := by
  unfold splitTableBlock
  rw [if_neg (by omega)]

theorem mem_range_map {α : Type} {b : α} {k : Nat} {f : Nat → α}
    (hb : b ∈ (List.range k).map f) : ∃ i, i < k ∧ b = f i := by
  rcases List.mem_map.mp hb with ⟨i, hi, h⟩
  exact ⟨i, List.mem_range.mp hi, h.symm⟩

/-- **C5.** Phase A splitting: every oversized code/bullets/numbered/table
block is cut into `ceil (N / ceiling)` same-kind blocks of at most `ceiling`
items whose concatenation is the original item sequence; table parts carry
the original headers verbatim; paragraph and quote blocks pass through as a
single block; and a 9-item bullets block yields parts of 6 and 3 items. -/
theorem c5_phaseA_split :
    (∀ its : List String, DSL_LIMITS.MAX_LIST_ITEMS < its.length →
      (splitContentBlock (.bullets its)).length
          = (its.length + DSL_LIMITS.MAX_LIST_ITEMS - 1) / DSL_LIMITS.MAX_LIST_ITEMS
        ∧ (∀ b ∈ splitContentBlock (.bullets its),
            ∃ xs, b = .bullets xs ∧ xs.length ≤ DSL_LIMITS.MAX_LIST_ITEMS)
        ∧ (splitContentBlock (.bullets its)).flatMap blockLeaves = its.map Leaf.text)
  ∧ (∀ its : List String, DSL_LIMITS.MAX_LIST_ITEMS < its.length →
      (splitContentBlock (.numbered its)).length
          = (its.length + DSL_LIMITS.MAX_LIST_ITEMS - 1) / DSL_LIMITS.MAX_LIST_ITEMS
        ∧ (∀ b ∈ splitContentBlock (.numbered its),
            ∃ xs, b = .numbered xs ∧ xs.length ≤ DSL_LIMITS.MAX_LIST_ITEMS)
        ∧ (splitContentBlock (.numbered its)).flatMap blockLeaves = its.map Leaf.text)
  ∧ (∀ (lang : String) (caption : Option String) (lines : List String),
      DSL_LIMITS.MAX_CODE_LINES < lines.length →
      (splitContentBlock (.code lang lines caption)).length
          = (lines.length + DSL_LIMITS.MAX_CODE_LINES - 1) / DSL_LIMITS.MAX_CODE_LINES
        ∧ (∀ b ∈ splitContentBlock (.code lang lines caption),
            ∃ ls c, b = .code lang ls c ∧ ls.length ≤ DSL_LIMITS.MAX_CODE_LINES)
        ∧ (splitContentBlock (.code lang lines caption)).flatMap blockLeaves
            = lines.map Leaf.text)
  ∧ (∀ (hs : List String) (caption : Option String) (rows : List (List String)),
      DSL_LIMITS.MAX_TABLE_ROWS < rows.length →
      (splitContentBlock (.table hs rows caption)).length
          = (rows.length + DSL_LIMITS.MAX_TABLE_ROWS - 1) / DSL_LIMITS.MAX_TABLE_ROWS
        ∧ (∀ b ∈ splitContentBlock (.table hs rows caption),
            ∃ rs c, b = .table hs rs c ∧ rs.length ≤ DSL_LIMITS.MAX_TABLE_ROWS)
        ∧ (splitContentBlock (.table hs rows caption)).flatMap blockLeaves
            = rows.map Leaf.row)
  ∧ (∀ t e, splitContentBlock (.paragraph t e) = [.paragraph t e])
  ∧ (∀ t a, splitContentBlock (.quote t a) = [.quote t a])
  ∧ splitContentBlock (.bullets ["a", "b", "c", "d", "e", "f", "g", "h", "i"])
      = [.bullets ["a", "b", "c", "d", "e", "f"], .bullets ["g", "h", "i"]] := by
  refine ⟨?_, ?_, ?_, ?_, fun t e => rfl, fun t a => rfl, by decide⟩
  · intro its h
    have heq : splitContentBlock (.bullets its) = splitListBlock false its := rfl
    refine ⟨?_, ?_, splitContentBlock_leaves (.bullets its)⟩
    · rw [heq, splitListBlock_oversized false its h]
      simp
    · intro b hb
      rw [heq, splitListBlock_oversized false its h] at hb
      rcases mem_range_map hb with ⟨i, hi, hb2⟩
      refine ⟨(its.drop (i * DSL_LIMITS.MAX_LIST_ITEMS)).take DSL_LIMITS.MAX_LIST_ITEMS,
        by simpa using hb2, ?_⟩
      rw [List.length_take]
      exact inf_le_left
  · intro its h
    have heq : splitContentBlock (.numbered its) = splitListBlock true its := rfl
    refine ⟨?_, ?_, splitContentBlock_leaves (.numbered its)⟩
    · rw [heq, splitListBlock_oversized true its h]
      simp
    · intro b hb
      rw [heq, splitListBlock_oversized true its h] at hb
      rcases mem_range_map hb with ⟨i, hi, hb2⟩
      refine ⟨(its.drop (i * DSL_LIMITS.MAX_LIST_ITEMS)).take DSL_LIMITS.MAX_LIST_ITEMS,
        by simpa using hb2, ?_⟩
      rw [List.length_take]
      exact inf_le_left
  · intro lang caption lines h
    have heq : splitContentBlock (.code lang lines caption)
        = splitCodeBlock lang lines caption := rfl
    refine ⟨?_, ?_, splitContentBlock_leaves (.code lang lines caption)⟩
    · rw [heq, splitCodeBlock_oversized lang lines caption h]
      simp
    · intro b hb
      rw [heq, splitCodeBlock_oversized lang lines caption h] at hb
      rcases mem_range_map hb with ⟨i, hi, hb2⟩
      refine ⟨(lines.drop (i * DSL_LIMITS.MAX_CODE_LINES)).take DSL_LIMITS.MAX_CODE_LINES,
        _, hb2, ?_⟩
      rw [List.length_take]
      exact inf_le_left
  · intro hs caption rows h
    have heq : splitContentBlock (.table hs rows caption)
        = splitTableBlock hs rows caption := rfl
    refine ⟨?_, ?_, splitContentBlock_leaves (.table hs rows caption)⟩
    · rw [heq, splitTableBlock_oversized hs rows caption h]
      simp
    · intro b hb
      rw [heq, splitTableBlock_oversized hs rows caption h] at hb
      rcases mem_range_map hb with ⟨i, hi, hb2⟩
      refine ⟨(rows.drop (i * DSL_LIMITS.MAX_TABLE_ROWS)).take DSL_LIMITS.MAX_TABLE_ROWS,
        _, hb2, ?_⟩
      rw [List.length_take]
      exact inf_le_left

/-- Witness for C5: the spec's 9-item bullets example, instantiating the
oversized-bullets clause of `c5_phaseA_split` at a concrete input. -/
theorem c5_phaseA_split_witness :
    DSL_LIMITS.MAX_LIST_ITEMS
        < (["a", "b", "c", "d", "e", "f", "g", "h", "i"] : List String).length
    ∧ (splitContentBlock (.bullets ["a", "b", "c", "d", "e", "f", "g", "h", "i"])).length = 2
    ∧ (splitContentBlock (.bullets ["a", "b", "c", "d", "e", "f", "g", "h", "i"])).flatMap
          blockLeaves
        = (["a", "b", "c", "d", "e", "f", "g", "h", "i"] : List String).map Leaf.text := by
  have h := c5_phaseA_split.1 ["a", "b", "c", "d", "e", "f", "g", "h", "i"] (by decide)
  exact ⟨by decide, by rw [h.1]; decide, h.2.2⟩

/-- **C8 (amended).** The estimator formulas: bullets/numbered blocks
estimate to `count * 0.35` and table blocks to `(rows + 1) * 0.35`, plus a
`0.3` caption allowance exactly when the caption is present **and
non-empty** (JavaScript truthiness); heights in hundredths of an inch. -/
theorem c8_height_formulas :
    (∀ items : List String, getBlockHeight (.bullets items) = items.length * 35)
  ∧ (∀ items : List String, getBlockHeight (.numbered items) = items.length * 35)
  ∧ (∀ (hs : List String) (rows : List (List String)) (caption : Option String),
      getBlockHeight (.table hs rows caption)
        = (rows.length + 1) * 35 + (if jsTruthyStr caption then 30 else 0)) := by
  refine ⟨fun items => rfl, fun items => rfl, fun hs rows caption => ?_⟩
  simp only [getBlockHeight]
  by_cases h : jsTruthyStr caption
  · rw [if_pos h, if_pos h]
  · rw [if_neg h, if_neg h]
    omega

/-- **C8 counterexample.** A table whose `caption` is present but the empty
string: the claim's "allowance exactly when the table has a caption" fails,
because the code tests JavaScript truthiness and `''` is falsy. -/
theorem c8_caption_counterexample :
    ((some "" : Option String)).isSome = true
    ∧ getBlockHeight (.table ["A"] [["x"]] (some ""))
        ≠ (([["x"]] : List (List String)).length + 1) * 35 + 30 := by
  decide

/-! ## Pagination of a single title-content slide -/

theorem autoSplitSlides_singleton (slide : SlideDSL) :
    (autoSplitSlides ⟨[slide]⟩).slides = splitSingleSlide slide := by
  simp [autoSplitSlides]

theorem splitSingleSlide_of_content (slide : SlideDSL) (c : List ContentBlock)
    (hl : slide.layout = SlideLayout.titleContent) (hc : slide.content = some c)
    (hne : c ≠ []) :
    splitSingleSlide slide = splitByContentSize slide (c.flatMap splitContentBlock) := by
  unfold splitSingleSlide
  rw [hl, hc]
  rw [if_neg (by decide), if_neg (by decide)]
  cases c with
  | nil => exact absurd rfl hne
  | cons b bs => rfl

theorem splitSingleSlide_of_none (slide : SlideDSL)
    (hl : slide.layout = SlideLayout.titleContent) (hc : slide.content = none) :
    splitSingleSlide slide = [slide] := by
  unfold splitSingleSlide
  rw [hl, hc]
  rw [if_neg (by decide), if_neg (by decide)]

theorem splitSingleSlide_of_empty (slide : SlideDSL)
    (hl : slide.layout = SlideLayout.titleContent) (hc : slide.content = some []) :
    splitSingleSlide slide = [slide] := by
  unfold splitSingleSlide
  rw [hl, hc]
  rw [if_neg (by decide), if_neg (by decide)]
  rfl

theorem enumFrom_flatMap_snd {α β : Type} (g : α → List β) :
    ∀ (n : Nat) (l : List α),
      (List.enumFrom n l).flatMap (fun pr => g pr.2) = l.flatMap g := by
  intro n l
  induction l generalizing n with
  | nil => simp
  | cons a l ih => simp [List.enumFrom_cons, List.flatMap_cons, ih]

theorem enum_flatMap_snd {α β : Type} (g : α → List β) (l : List α) :
    l.enum.flatMap (fun pr => g pr.2) = l.flatMap g := by
  have h : l.enum = List.enumFrom 0 l := rfl
  rw [h, enumFrom_flatMap_snd]

/-- Phase B emits exactly the leaves of the expanded block sequence. -/
theorem splitByContentSize_leaves (slide : SlideDSL) (blocks : List ContentBlock) :
    ((splitByContentSize slide blocks).flatMap slideLeaves) = blocks.flatMap blockLeaves := by
  unfold splitByContentSize
  by_cases h1 : blocks.length ≤ 1
  · rw [if_pos h1]
    simp [slideLeaves]
  · rw [if_neg h1]
    have hflat : (mergeBack (packPages blocks)).flatten = blocks := by
      rw [mergeBack_flatten, packPages_flatten]
    by_cases h2 : (mergeBack (packPages blocks)).length = 1
    · rw [if_pos h2]
      rcases List.length_eq_one.mp h2 with ⟨p, hp⟩
      rw [hp] at hflat
      have hpb : p = blocks := by simpa using hflat
      rw [hp]
      simp [slideLeaves, hpb]
    · rw [if_neg h2]
      rw [List.flatMap_map]
      have hbody : (fun pr : Nat × List ContentBlock =>
          slideLeaves { slide with
            title := some ((slide.title.getD "") ++ " (" ++ toString (pr.1 + 1) ++ "/"
              ++ toString (mergeBack (packPages blocks)).length ++ ")")
            content := some pr.2 })
          = fun pr : Nat × List ContentBlock => pr.2.flatMap blockLeaves := by
        funext pr
        simp [slideLeaves]
      rw [hbody]
      have h3 := enum_flatMap_snd (fun p => p.flatMap blockLeaves)
        (mergeBack (packPages blocks))
      rw [h3, ← flatMap_flatten, hflat]

/-- **C1.** No data loss under pagination: for a `title-content` slide with
non-empty content, concatenating the leaves of the slides produced by
`autoSplitSlides`, in output order, gives exactly the input slide's leaves
in their original order. -/
theorem c1_no_data_loss (slide : SlideDSL) (c : List ContentBlock)
    (hl : slide.layout = SlideLayout.titleContent) (hc : slide.content = some c)
    (hne : c ≠ []) :
    ((autoSplitSlides ⟨[slide]⟩).slides.flatMap slideLeaves) = c.flatMap blockLeaves := by
  rw [autoSplitSlides_singleton, splitSingleSlide_of_content slide c hl hc hne,
    splitByContentSize_leaves, List.flatMap_assoc]
  simp only [splitContentBlock_leaves]

/-- A small concrete title-content slide for the C1 witness. -/
def c1slide : SlideDSL :=
  { layout := .titleContent, title := some "T",
    content := some [.bullets ["a", "b"], .paragraph "p" none] }

/-- Witness for C1 at a concrete two-block slide. -/
theorem c1_no_data_loss_witness :
    c1slide.layout = SlideLayout.titleContent
    ∧ c1slide.content = some [.bullets ["a", "b"], .paragraph "p" none]
    ∧ ([ContentBlock.bullets ["a", "b"], .paragraph "p" none] : List ContentBlock) ≠ []
    ∧ ((autoSplitSlides ⟨[c1slide]⟩).slides.flatMap slideLeaves)
        = [Leaf.text "a", Leaf.text "b", Leaf.text "p"] := by
  refine ⟨rfl, rfl, by decide, ?_⟩
  rw [c1_no_data_loss c1slide [.bullets ["a", "b"], .paragraph "p" none] rfl rfl (by decide)]
  decide

/-- Phase B title rewriting: if exactly one slide results its title is
untouched; if `N > 1` result, slide `i` (0-based) gets the suffix
`" (i+1/N)"` appended to the original title. -/
theorem splitByContentSize_titles (slide : SlideDSL) (blocks : List ContentBlock)
    (t : String) (ht : slide.title = some t) :
    ((splitByContentSize slide blocks).length = 1 →
       ∀ s ∈ splitByContentSize slide blocks, s.title = some t)
  ∧ (1 < (splitByContentSize slide blocks).length →
       ∀ i (hi : i < (splitByContentSize slide blocks).length),
         ((splitByContentSize slide blocks).get ⟨i, hi⟩).title
           = some (t ++ " (" ++ toString (i + 1) ++ "/"
               ++ toString (splitByContentSize slide blocks).length ++ ")")) := by
  unfold splitByContentSize
  by_cases hp1 : blocks.length ≤ 1
  · rw [if_pos hp1]
    constructor
    · intro _ s hsm
      rw [List.mem_singleton.mp hsm]
      exact ht
    · intro habs
      simp at habs
  · rw [if_neg hp1]
    by_cases hp2 : (mergeBack (packPages blocks)).length = 1
    · rw [if_pos hp2]
      constructor
      · intro _ s hsm
        rw [List.mem_singleton.mp hsm]
        exact ht
      · intro habs
        simp at habs
    · rw [if_neg hp2]
      have hlen : ((mergeBack (packPages blocks)).enum.map (fun p =>
          ({ slide with
            title := some ((slide.title.getD "") ++ " (" ++ toString (p.1 + 1) ++ "/"
                ++ toString (mergeBack (packPages blocks)).length ++ ")")
            content := some p.2 } : SlideDSL))).length
          = (mergeBack (packPages blocks)).length := by
        rw [List.length_map, List.enum_length]
      constructor
      · intro h1
        rw [hlen] at h1
        exact absurd h1 hp2
      · intro _ i hi
        rw [List.get_eq_getElem, List.getElem_map, List.getElem_enum]
        simp only [ht, Option.getD_some] at hlen ⊢
        rw [hlen]

/-- **C6.** Title suffixing: when `autoSplitSlides` paginates a
`title-content` slide with title `t` into `N` output slides, every output
title is `t` followed by `" (i/N)"` (1-indexed) if `N > 1`, and is exactly
`t` if `N = 1`. -/
theorem c6_title_suffix (slide : SlideDSL) (t : String)
    (hl : slide.layout = SlideLayout.titleContent) (ht : slide.title = some t) :
    ((autoSplitSlides ⟨[slide]⟩).slides.length = 1 →
       ∀ s ∈ (autoSplitSlides ⟨[slide]⟩).slides, s.title = some t)
  ∧ (1 < (autoSplitSlides ⟨[slide]⟩).slides.length →
       ∀ i (hi : i < (autoSplitSlides ⟨[slide]⟩).slides.length),
         ((autoSplitSlides ⟨[slide]⟩).slides.get ⟨i, hi⟩).title
           = some (t ++ " (" ++ toString (i + 1) ++ "/"
               ++ toString (autoSplitSlides ⟨[slide]⟩).slides.length ++ ")")) := by
  rw [autoSplitSlides_singleton]
  cases hcon : slide.content with
  | none =>
    rw [splitSingleSlide_of_none slide hl hcon]
    refine ⟨fun _ s hsm => ?_, fun habs => by simp at habs⟩
    rw [List.mem_singleton.mp hsm]
    exact ht
  | some blocksIn =>
    cases blocksIn with
    | nil =>
      rw [splitSingleSlide_of_empty slide hl hcon]
      refine ⟨fun _ s hsm => ?_, fun habs => by simp at habs⟩
      rw [List.mem_singleton.mp hsm]
      exact ht
    | cons b0 bs0 =>
      rw [splitSingleSlide_of_content slide (b0 :: bs0) hl hcon (by simp)]
      exact splitByContentSize_titles slide ((b0 :: bs0).flatMap splitContentBlock) t ht

/-- A 450-character paragraph text (estimated height 2.25 inches). -/
def tallText : String := String.mk (List.replicate 450 'x')

/-- A title-content slide that paginates into two output slides. -/
def twoPageSlide : SlideDSL :=
  { layout := .titleContent, title := some "T",
    content := some [.paragraph tallText none, .paragraph tallText none] }

/-- Witness for C6 at a concrete slide that splits into two pages. -/
theorem c6_title_suffix_witness :
    twoPageSlide.layout = SlideLayout.titleContent
    ∧ twoPageSlide.title = some "T"
    ∧ (autoSplitSlides ⟨[twoPageSlide]⟩).slides.length = 2
    ∧ ((autoSplitSlides ⟨[twoPageSlide]⟩).slides.get ⟨0, by decide⟩).title = some "T (1/2)"
    ∧ ((autoSplitSlides ⟨[twoPageSlide]⟩).slides.get ⟨1, by decide⟩).title = some "T (2/2)" := by
  refine ⟨rfl, rfl, by decide, ?_, ?_⟩
  · have h := (c6_title_suffix twoPageSlide "T" rfl rfl).2 (by decide) 0 (by decide)
    rw [h]
    decide
  · have h := (c6_title_suffix twoPageSlide "T" rfl rfl).2 (by decide) 1 (by decide)
    rw [h]
    decide

/-- **C2 (amended).** Page budget: every output slide of paginating a
`title-content` slide satisfies the `4.2`-inch budget (heights in
hundredths, including one `0.15` spacing between consecutive blocks) or
contains exactly one block — except possibly the **last** output slide,
which the merge-back step may push over the budget. -/
theorem c2_page_budget_bound (slide : SlideDSL)
    (hl : slide.layout = SlideLayout.titleContent)
    (s : SlideDSL) (hs : s ∈ ((autoSplitSlides ⟨[slide]⟩).slides).dropLast)
    (c : List ContentBlock) (hc : s.content = some c) :
    c.length = 1 ∨ heightSum c ≤ MAX_CONTENT_HEIGHT := by
  rw [autoSplitSlides_singleton] at hs
  cases hcon : slide.content with
  | none =>
    rw [splitSingleSlide_of_none slide hl hcon] at hs
    simp at hs
  | some blocksIn =>
    cases blocksIn with
    | nil =>
      rw [splitSingleSlide_of_empty slide hl hcon] at hs
      simp at hs
    | cons b0 bs0 =>
      rw [splitSingleSlide_of_content slide (b0 :: bs0) hl hcon (by simp)] at hs
      unfold splitByContentSize at hs
      by_cases hp1 : ((b0 :: bs0).flatMap splitContentBlock).length ≤ 1
      · rw [if_pos hp1] at hs
        simp at hs
      · rw [if_neg hp1] at hs
        by_cases hp2 : (mergeBack (packPages ((b0 :: bs0).flatMap splitContentBlock))).length = 1
        · rw [if_pos hp2] at hs
          simp at hs
        · rw [if_neg hp2] at hs
          rcases List.mem_iff_getElem.mp hs with ⟨n, hn, hg⟩
          have hn2 : n < (mergeBack (packPages ((b0 :: bs0).flatMap splitContentBlock))).length - 1 := by
            simpa [List.length_dropLast, List.length_map, List.enum_length] using hn
          have hnp : n < (mergeBack (packPages ((b0 :: bs0).flatMap splitContentBlock))).length := by
            omega
          have hdl : n < (mergeBack (packPages ((b0 :: bs0).flatMap splitContentBlock))).dropLast.length := by
            simpa [List.length_dropLast] using hn2
          rw [List.getElem_dropLast, List.getElem_map, List.getElem_enum] at hg
          have hsc : s.content
              = some ((mergeBack (packPages ((b0 :: bs0).flatMap splitContentBlock))).get ⟨n, hnp⟩) := by
            rw [← hg, List.get_eq_getElem]
          have hcp : c = (mergeBack (packPages ((b0 :: bs0).flatMap splitContentBlock))).get ⟨n, hnp⟩ := by
            rw [hc] at hsc
            exact Option.some.inj hsc
          have hmem : (mergeBack (packPages ((b0 :: bs0).flatMap splitContentBlock))).get ⟨n, hnp⟩
              ∈ (mergeBack (packPages ((b0 :: bs0).flatMap splitContentBlock))).dropLast := by
            have hgd := List.getElem_mem (l := (mergeBack (packPages ((b0 :: bs0).flatMap splitContentBlock))).dropLast) (n := n) hdl
            rw [List.getElem_dropLast] at hgd
            rw [List.get_eq_getElem]
            exact hgd
          have hpm := mergeBack_dropLast_mem _ _ hmem
          have hgood := packPages_good _ _ hpm
          rw [hcp]
          exact hgood

/-- An 800-character paragraph text (estimated height 4.0 inches). -/
def hugeText : String := String.mk (List.replicate 800 'a')

/-- A title-content slide on which merge-back busts the page budget. -/
def mergedSlide : SlideDSL :=
  { layout := .titleContent, title := some "M",
    content := some [.paragraph hugeText none, .paragraph "short" none] }

/-- **C2 counterexample.** Pagination of `mergedSlide` produces a single
output slide holding both paragraphs: the greedy pass puts them on separate
pages (4.0 + 0.15 + 0.4 > 4.2) but the merge-back step (0.4 < 0.8) folds
the last page back, yielding one two-block slide of estimated height 4.55,
which exceeds the 4.2 budget while containing more than one block. -/
theorem c2_budget_counterexample :
    mergedSlide.layout = SlideLayout.titleContent
    ∧ (autoSplitSlides ⟨[mergedSlide]⟩).slides = [mergedSlide]
    ∧ ([ContentBlock.paragraph hugeText none, .paragraph "short" none] : List ContentBlock).length
        = 2
    ∧ MAX_CONTENT_HEIGHT
        < heightSum [.paragraph hugeText none, .paragraph "short" none] := by
  refine ⟨rfl, by decide, by decide, by decide⟩

/-- Witness for the amended C2 theorem at the concrete two-page slide. -/
theorem c2_page_budget_bound_witness :
    twoPageSlide.layout = SlideLayout.titleContent
    ∧ ((autoSplitSlides ⟨[twoPageSlide]⟩).slides.get ⟨0, by decide⟩)
        ∈ ((autoSplitSlides ⟨[twoPageSlide]⟩).slides).dropLast
    ∧ ((autoSplitSlides ⟨[twoPageSlide]⟩).slides.get ⟨0, by decide⟩).content
        = some [.paragraph tallText none]
    ∧ (([ContentBlock.paragraph tallText none] : List ContentBlock).length = 1
        ∨ heightSum [ContentBlock.paragraph tallText none] ≤ MAX_CONTENT_HEIGHT) := by
  refine ⟨rfl, by decide, by decide, ?_⟩
  exact c2_page_budget_bound twoPageSlide rfl
    ((autoSplitSlides ⟨[twoPageSlide]⟩).slides.get ⟨0, by decide⟩) (by decide)
    [.paragraph tallText none] (by decide)

/-! ## Untyped values and the block normalizer (`normalizeContentBlock`) -/

/-- An untyped JavaScript value as produced by `JSON.parse`: the input type
of the block normalizer and the lenient decoder.  Model restriction: JSON
numbers are integers (`Int`); no claim exercises fractional numbers. -/
inductive JVal
  | null
  | bool (b : Bool)
  | num (n : Int)
  | str (s : String)
  | arr (elems : List JVal)
  | obj (fields : List (String × JVal))

/-- `Array.prototype.join(",")`. -/
def joinCommaStr : List String → String
  | [] => ""
  | [s] => s
  | s :: rest => s ++ "," ++ joinCommaStr rest

/-- Recursion budget for `jsString`: JavaScript `String(x)` recurses through
nested arrays and real engines abort with a stack overflow far below this
depth, so cutting the (total, fuel-structured) model off at this bound loses
nothing relevant. -/
def jsStringFuel : Nat := 100000

/-- Worker for `jsString`: stringify a list of values, spending one unit of
fuel per element and per nesting level; `inArr` marks the
`Array.prototype.join` context, where `null` prints as the empty string. -/
def jsStrAux : Nat → Bool → List JVal → List String
  | 0, _, _ => []
  | _ + 1, _, [] => []
  | fuel + 1, inArr, v :: rest =>
      (match v with
       | .null => if inArr then "" else "null"
       | .bool b => cond b "true" "false"
       | .num n => toString n
       | .str s => s
       | .obj _ => "[object Object]"
       | .arr elems => joinCommaStr (jsStrAux fuel true elems))
      :: jsStrAux fuel inArr rest

/-- JavaScript `String(x)` on JSON values: `"null"`, `"true"`/`"false"`,
decimal integers, strings unchanged, arrays joined with `","` (array
elements that are `null` print as empty), objects as `"[object Object]"`. -/
def jsString (v : JVal) : String :=
  joinCommaStr (jsStrAux jsStringFuel false [v])

/-- Property lookup on a parsed object.  `JSON.parse` keeps the value of the
**last** duplicate key, so lookup returns the last binding; `none` models
`undefined`. -/
def jGet (fields : List (String × JVal)) (key : String) : Option JVal :=
  match fields with
  | [] => none
  | (k, v) :: rest =>
    match jGet rest key with
    | some w => some w
    | none => if k = key then some v else none

/-- `typeof x === 'string' ? x : undefined`. -/
def asString : Option JVal → Option String
  | some (.str s) => some s
  | _ => none

/-- The string elements of an array (`filter(x => typeof x === 'string')`). -/
def strsOf (xs : List JVal) : List String :=
  xs.filterMap fun v =>
    match v with
    | .str s => some s
    | _ => none

/-- JavaScript `split` on a one-character separator, on character lists
(`"".split(c) = [""]`). -/
def splitOnChar (sep : Char) : List Char → List (List Char)
  | [] => [[]]
  | c :: rest =>
    match splitOnChar sep rest with
    | [] => if c = sep then [[], []] else [[c]]
    | h :: t => if c = sep then [] :: h :: t else (c :: h) :: t

/-- JavaScript `s.split(sep)` for a one-character separator. -/
def jsSplitChar (s : String) (sep : Char) : List String :=
  (splitOnChar sep s.data).map String.mk

/-- The markdown separator-line test `/^\|?\s*[-:]+\s*\|/` of
`parseMarkdownTable` (an anchored match; the optional leading pipe is
consumed greedily, which is equivalent since `[-:]` cannot match `|`). -/
def sepLineMatch (line : String) : Bool :=
  let cs :=
    match line.data with
    | '|' :: rest => rest
    | cs => cs
  let cs2 := cs.dropWhile jsWhitespace
  let ds := cs2.takeWhile fun c => c = '-' ∨ c = ':'
  if ds.isEmpty then false
  else
    match (cs2.drop ds.length).dropWhile jsWhitespace with
    | '|' :: _ => true
    | _ => false

/-- One markdown table line split into cells:
`line.split('|').map(trim).filter(length > 0)`. -/
def splitCells (line : String) : List String :=
  ((jsSplitChar line '|').map jsTrim).filter fun cell => 0 < cell.length

/-- `parseMarkdownTable` of `src/lib/dsl-parser.ts` (lines 121–162). -/
def parseMarkdownTable (text : String) : Option (List String × List (List String)) :=
  let lines := (jsSplitChar text '\n').filter fun line => 0 < (jsTrim line).length
  if lines.length < 2 then none
  else
    let headerLine := lines.getD 0 ""
    if ¬ headerLine.data.contains '|' then none
    else
      let headers := splitCells headerLine
      if headers.length = 0 then none
      else
        let dataStartIndex := if sepLineMatch (lines.getD 1 "") then 2 else 1
        let rows := (lines.drop dataStartIndex).filterMap fun line =>
          if ¬ line.data.contains '|' then none
          else
            let cells := splitCells line
            if 0 < cells.length then some cells else none
        if rows.length = 0 then none
        else some (headers, rows)

/-- The `headers` extraction of the `'table'` case of `normalizeContentBlock`
(lines 777–779): a non-empty `headers` array filtered to its strings. -/
def tableHeadersInit (fields : List (String × JVal)) : List String :=
  match jGet fields "headers" with
  | some (.arr hs) => if 0 < hs.length then strsOf hs else []
  | _ => []

/-- One raw table row: kept only if it is an array, with every cell converted
by `String(cell)`. -/
def rowOfJVal (r : JVal) : Option (List String) :=
  match r with
  | .arr cells => some (cells.map jsString)
  | _ => none

/-- The `rows` extraction of the `'table'` case of `normalizeContentBlock`
(lines 782–792): the `rows` array if it is one, else the `data` array,
keeping only array-shaped entries and stringifying every cell. -/
def tableRowsInit (fields : List (String × JVal)) : List (List String) :=
  match jGet fields "rows" with
  | some (.arr rs) => rs.filterMap rowOfJVal
  | _ =>
    match jGet fields "data" with
    | some (.arr rs) => rs.filterMap rowOfJVal
    | _ => []

/-- The `'table'` case of `normalizeContentBlock` (lines 772–817). -/
def normalizeTable (fields : List (String × JVal)) : Option ContentBlock :=
  let headers := tableHeadersInit fields
  let rows := tableRowsInit fields
  let hr :=
    if headers.length = 0 ∨ rows.length = 0 then
      match asString (jGet fields "text") with
      | some s =>
        match parseMarkdownTable s with
        | some parsed => parsed
        | none => (headers, rows)
      | none => (headers, rows)
    else (headers, rows)
  let headers2 :=
    if hr.1.length = 0 ∧ 0 < hr.2.length then
      (List.range (hr.2.headD []).length).map fun i => "列" ++ toString (i + 1)
    else hr.1
  if headers2.length = 0 ∨ hr.2.length = 0 then none
  else some (.table headers2 hr.2 (asString (jGet fields "caption")))

/-- The `language`-fallback of the `'code'` case: `lang` then `"text"`. -/
def codeLangFallback (fields : List (String × JVal)) : String :=
  match asString (jGet fields "lang") with
  | some l => if 0 < l.length then l else "text"
  | none => "text"

/-- The string-field fallbacks for code lines: `code`, `content`, `text`,
each split on newlines. -/
def codeLinesFallback (fields : List (String × JVal)) : List String :=
  match asString (jGet fields "code") with
  | some c => jsSplitChar c '\n'
  | none =>
    match asString (jGet fields "content") with
    | some c => jsSplitChar c '\n'
    | none =>
      match asString (jGet fields "text") with
      | some c => jsSplitChar c '\n'
      | none => []

/-- The `'code'` case of `normalizeContentBlock` (lines 733–770). -/
def normalizeCode (fields : List (String × JVal)) : Option ContentBlock :=
  let lines :=
    match jGet fields "lines" with
    | some (.arr xs) => if 0 < xs.length then strsOf xs else codeLinesFallback fields
    | _ => codeLinesFallback fields
  if lines.length = 0 then none
  else
    let language :=
      match asString (jGet fields "language") with
      | some l => if 0 < l.length then l else codeLangFallback fields
      | none => codeLangFallback fields
    some (.code language lines (asString (jGet fields "caption")))

/-- The emphasis coercion of the `'paragraph'` case: accepted only if the
field is exactly one of the three tokens, else omitted. -/
def emphasisOf (v : Option JVal) : Option Emphasis :=
  match asString v with
  | some e =>
    if e = "normal" then some .normal
    else if e = "highlight" then some .highlight
    else if e = "muted" then some .muted
    else none
  | none => none

/-- `normalizeContentBlock` of `src/lib/dsl-parser.ts` (lines 704–840).
Non-objects (including `null` and arrays, whose `type` access yields
`undefined`) and unknown `type` tags yield `none`. -/
def normalizeContentBlock (block : JVal) : Option ContentBlock :=
  match block with
  | .obj fields =>
    match jGet fields "type" with
    | some (.str t) =>
      if t = "paragraph" then
        match jGet fields "text" with
        | some (.str s) => some (.paragraph s (emphasisOf (jGet fields "emphasis")))
        | _ => none
      else if t = "bullets" ∨ t = "numbered" then
        match jGet fields "items" with
        | some (.arr xs) =>
          if 0 < xs.length then
            some (if t = "bullets" then .bullets (strsOf xs) else .numbered (strsOf xs))
          else none
        | _ => none
      else if t = "code" then normalizeCode fields
      else if t = "table" then normalizeTable fields
      else if t = "quote" then
        match jGet fields "text" with
        | some (.str s) => some (.quote s (asString (jGet fields "author")))
        | _ =>
          match jGet fields "content" with
          | some (.str s) => some (.quote s (asString (jGet fields "author")))
          | _ => none
      else none
    | _ => none
  | _ => none

/-! ## Dispatch lemmas for the normalizer -/

theorem normalizeContentBlock_table (fields : List (String × JVal))
    (htype : jGet fields "type" = some (.str "table")) :
    normalizeContentBlock (.obj fields) = normalizeTable fields := by
  unfold normalizeContentBlock
  simp only [htype]
  rw [if_neg (by decide), if_neg (by decide), if_neg (by decide), if_pos (by decide)]

theorem asString_none_of_not_str (v : Option JVal) (h : ∀ s, v ≠ some (.str s)) :
    asString v = none := by
  cases v with
  | none => rfl
  | some w =>
    cases w with
    | str s => exact absurd rfl (h s)
    | null => rfl
    | bool b => rfl
    | num n => rfl
    | arr l => rfl
    | obj f => rfl

/-- **C4 counterexample.** A bullets block whose `items` array holds a single
non-string element: the normalizer accepts it (the length check precedes the
string filter) and returns a bullets block with an **empty** items list,
refuting both "returns a block only if items contains at least one string
element" and "every returned bullets block has non-empty items". -/
theorem c4_items_counterexample :
    normalizeContentBlock (.obj [("type", .str "bullets"), ("items", .arr [.bool true])])
      = some (.bullets [])
    ∧ ∀ s, (.bool true : JVal) ≠ .str s := by
  constructor
  · decide
  · intro s h
    cases h

/-- **C4 (amended).** For `bullets`/`numbered` inputs whose `items` field is
an array, the normalizer returns a block **iff the array is non-empty**
(elements of any type count), and the returned items are exactly the
string elements of the input in order — possibly none of them. -/
theorem c4_items_rule :
    (∀ (fields : List (String × JVal)) (xs : List JVal),
      jGet fields "type" = some (.str "bullets") →
      jGet fields "items" = some (.arr xs) →
      normalizeContentBlock (.obj fields)
        = if 0 < xs.length then some (.bullets (strsOf xs)) else none)
  ∧ (∀ (fields : List (String × JVal)) (xs : List JVal),
      jGet fields "type" = some (.str "numbered") →
      jGet fields "items" = some (.arr xs) →
      normalizeContentBlock (.obj fields)
        = if 0 < xs.length then some (.numbered (strsOf xs)) else none) := by
  constructor
  · intro fields xs ht hi
    unfold normalizeContentBlock
    simp only [ht]
    rw [if_neg (by decide), if_pos (by decide)]
    simp only [hi]
    by_cases hx : 0 < xs.length
    · rw [if_pos hx, if_pos hx]
      simp
    · rw [if_neg hx, if_neg hx]
  · intro fields xs ht hi
    unfold normalizeContentBlock
    simp only [ht]
    rw [if_neg (by decide), if_pos (by decide)]
    simp only [hi]
    by_cases hx : 0 < xs.length
    · rw [if_pos hx, if_pos hx]
      simp
    · rw [if_neg hx, if_neg hx]

/-- Witness for the amended C4 at a concrete mixed-type items array. -/
theorem c4_items_rule_witness :
    jGet [("type", .str "bullets"), ("items", .arr [.str "x", .bool true])] "type"
      = some (.str "bullets")
    ∧ jGet [("type", .str "bullets"), ("items", .arr [.str "x", .bool true])] "items"
      = some (.arr [.str "x", .bool true])
    ∧ normalizeContentBlock
        (.obj [("type", .str "bullets"), ("items", .arr [.str "x", .bool true])])
      = some (.bullets ["x"]) := by
  refine ⟨rfl, rfl, ?_⟩
  rw [c4_items_rule.1 [("type", .str "bullets"), ("items", .arr [.str "x", .bool true])]
    [.str "x", .bool true] rfl rfl]
  decide

/-- A successful markdown-table parse always has non-empty headers and rows. -/
theorem parseMarkdownTable_some_ne (s : String) (pr : List String × List (List String))
    (h : parseMarkdownTable s = some pr) : pr.1 ≠ [] ∧ pr.2 ≠ [] := by
  simp only [parseMarkdownTable] at h
  split at h
  next hlt => exact absurd h (by simp)
  next hlt =>
    split at h
    next hcontains => exact absurd h (by simp)
    next hcontains =>
      split at h
      next hhead => exact absurd h (by simp)
      next hhead =>
        split at h
        next hsep =>
          split at h
          next hrows => exact absurd h (by simp)
          next hrows =>
            have hp := Option.some.inj h
            subst hp
            exact ⟨fun e => hhead (List.length_eq_zero.mpr e),
              fun e => hrows (List.length_eq_zero.mpr e)⟩
        next hsep =>
          split at h
          next hrows => exact absurd h (by simp)
          next hrows =>
            have hp := Option.some.inj h
            subst hp
            exact ⟨fun e => hhead (List.length_eq_zero.mpr e),
              fun e => hrows (List.length_eq_zero.mpr e)⟩

/-- **C7.** Markdown-table fallback: for a `table` input whose `headers` and
`rows`/`data` extractions are both empty but whose `text` field is a string,
the normalizer returns exactly the parsed markdown pipe-table (with the
caption passed through) and fails precisely when the markdown parse fails —
in which case headers or rows would still be empty; a successful markdown
parse always yields non-empty headers, so the positional-header fallback is
never reached in this scenario.  The spec's concrete example normalizes to
headers `A`,`B` with rows `1 2` and `3 4`. -/
theorem c7_markdown_fallback :
    (∀ (fields : List (String × JVal)) (s : String),
      jGet fields "type" = some (.str "table") →
      tableHeadersInit fields = [] →
      tableRowsInit fields = [] →
      jGet fields "text" = some (.str s) →
      normalizeContentBlock (.obj fields)
        = match parseMarkdownTable s with
          | some pr => some (.table pr.1 pr.2 (asString (jGet fields "caption")))
          | none => none)
  ∧ (∀ (s : String) (pr : List String × List (List String)),
      parseMarkdownTable s = some pr → pr.1 ≠ [] ∧ pr.2 ≠ [])
  ∧ normalizeContentBlock (.obj [("type", .str "table"),
      ("text", .str "| A | B |\n|---|---|\n| 1 | 2 |\n| 3 | 4 |")])
      = some (.table ["A", "B"] [["1", "2"], ["3", "4"]] none) := by
  refine ⟨?_, parseMarkdownTable_some_ne, by decide⟩
  intro fields s htype hh hr htext
  rw [normalizeContentBlock_table fields htype]
  unfold normalizeTable
  simp only [hh, hr, htext]
  cases hmd : parseMarkdownTable s with
  | none => simp [hmd, asString]
  | some pr =>
    have hne := parseMarkdownTable_some_ne s pr hmd
    have h1 : ¬ pr.1.length = 0 := by simpa [List.length_eq_zero] using hne.1
    have h2 : ¬ pr.2.length = 0 := by simpa [List.length_eq_zero] using hne.2
    simp [hmd, asString, h1, h2]

/-- Witness for C7: the general fallback clause instantiated at the spec's
markdown-table example input. -/
theorem c7_markdown_fallback_witness :
    jGet [("type", .str "table"),
        ("text", .str "| A | B |\n|---|---|\n| 1 | 2 |\n| 3 | 4 |")] "type"
      = some (.str "table")
    ∧ tableHeadersInit [("type", .str "table"),
        ("text", .str "| A | B |\n|---|---|\n| 1 | 2 |\n| 3 | 4 |")] = []
    ∧ tableRowsInit [("type", .str "table"),
        ("text", .str "| A | B |\n|---|---|\n| 1 | 2 |\n| 3 | 4 |")] = []
    ∧ normalizeContentBlock (.obj [("type", .str "table"),
        ("text", .str "| A | B |\n|---|---|\n| 1 | 2 |\n| 3 | 4 |")])
      = some (.table ["A", "B"] [["1", "2"], ["3", "4"]] none) := by
  refine ⟨rfl, by decide, by decide, ?_⟩
  rw [c7_markdown_fallback.1 [("type", .str "table"),
    ("text", .str "| A | B |\n|---|---|\n| 1 | 2 |\n| 3 | 4 |")]
    "| A | B |\n|---|---|\n| 1 | 2 |\n| 3 | 4 |" rfl (by decide) (by decide) rfl]
  decide

/-- Core of the `'table'` case when the markdown-text fallback cannot fire:
whatever rows the `rows`/`data` extraction produced are returned verbatim
(cells already stringified), with some headers (the given ones if usable,
else positional ones sized to the first row). -/
theorem normalizeTable_rows_core (fields : List (String × JVal))
    (rows0 : List (List String)) (hri : tableRowsInit fields = rows0)
    (hat : asString (jGet fields "text") = none) (hne : rows0 ≠ [])
    (hfr : rows0.headD [] ≠ []) :
    ∃ hs, normalizeTable fields
        = some (.table hs rows0 (asString (jGet fields "caption"))) := by
  have hlen : ¬ rows0.length = 0 := fun e => hne (List.length_eq_zero.mp e)
  have hmain : normalizeTable fields
      = if (if (tableHeadersInit fields).length = 0 ∧ 0 < rows0.length
              then (List.range (rows0.headD []).length).map
                (fun i => "列" ++ toString (i + 1))
              else tableHeadersInit fields).length = 0 ∨ rows0.length = 0
        then none
        else some (.table
          (if (tableHeadersInit fields).length = 0 ∧ 0 < rows0.length
              then (List.range (rows0.headD []).length).map
                (fun i => "列" ++ toString (i + 1))
              else tableHeadersInit fields)
          rows0 (asString (jGet fields "caption"))) := by
    unfold normalizeTable
    simp only [hri, hat, ite_self]
  by_cases hh : (tableHeadersInit fields).length = 0
  · refine ⟨(List.range (rows0.headD []).length).map (fun i => "列" ++ toString (i + 1)), ?_⟩
    rw [hmain,
      if_pos (show (tableHeadersInit fields).length = 0 ∧ 0 < rows0.length from
        ⟨hh, by omega⟩),
      if_neg (show ¬ (((List.range (rows0.headD []).length).map
            (fun i => "列" ++ toString (i + 1))).length = 0 ∨ rows0.length = 0) from by
        intro hcon
        rcases hcon with hcon | hcon
        · rw [List.length_map, List.length_range] at hcon
          exact hfr (List.length_eq_zero.mp hcon)
        · exact hlen hcon)]
  · refine ⟨tableHeadersInit fields, ?_⟩
    have hcond : ¬ ((tableHeadersInit fields).length = 0 ∧ 0 < rows0.length) :=
      fun hcon => hh hcon.1
    rw [hmain, if_neg hcond,
      if_neg (show ¬ ((tableHeadersInit fields).length = 0 ∨ rows0.length = 0) from by
        intro hcon
        rcases hcon with hcon | hcon
        · exact hh hcon
        · exact hlen hcon)]

/-- **C10 (amended).** Table rows accepted as data: when a `table` input's
`rows` field (or, failing that, its `data` field) is an array and no string
`text` field can trigger the markdown fallback, the normalizer keeps every
array-shaped entry as a row — dropping only non-array entries — and converts
every cell, of any JSON type, with `String(cell)`; provided at least one row
is kept and the first kept row is non-empty, the block succeeds with exactly
those stringified rows. -/
theorem c10_cells_stringified :
    (∀ (fields : List (String × JVal)) (rsv : List JVal),
      jGet fields "type" = some (.str "table") →
      jGet fields "rows" = some (.arr rsv) →
      (∀ s, jGet fields "text" ≠ some (.str s)) →
      rsv.filterMap rowOfJVal ≠ [] →
      (rsv.filterMap rowOfJVal).headD [] ≠ [] →
      ∃ hs, normalizeContentBlock (.obj fields)
          = some (.table hs (rsv.filterMap rowOfJVal) (asString (jGet fields "caption"))))
  ∧ (∀ (fields : List (String × JVal)) (rsv : List JVal),
      jGet fields "type" = some (.str "table") →
      (∀ l, jGet fields "rows" ≠ some (.arr l)) →
      jGet fields "data" = some (.arr rsv) →
      (∀ s, jGet fields "text" ≠ some (.str s)) →
      rsv.filterMap rowOfJVal ≠ [] →
      (rsv.filterMap rowOfJVal).headD [] ≠ [] →
      ∃ hs, normalizeContentBlock (.obj fields)
          = some (.table hs (rsv.filterMap rowOfJVal) (asString (jGet fields "caption")))) := by
  constructor
  · intro fields rsv htype hrows htext hne hfr
    rw [normalizeContentBlock_table fields htype]
    have hri : tableRowsInit fields = rsv.filterMap rowOfJVal := by
      unfold tableRowsInit
      rw [hrows]
    exact normalizeTable_rows_core fields _ hri (asString_none_of_not_str _ htext) hne hfr
  · intro fields rsv htype hrownot hdata htext hne hfr
    rw [normalizeContentBlock_table fields htype]
    have hri : tableRowsInit fields = rsv.filterMap rowOfJVal := by
      unfold tableRowsInit
      cases hjr : jGet fields "rows" with
      | none => rw [hdata]
      | some v =>
        cases v with
        | arr l => exact absurd hjr (hrownot l)
        | null => rw [hdata]
        | bool b => rw [hdata]
        | num n => rw [hdata]
        | str s => rw [hdata]
        | obj f => rw [hdata]
    exact normalizeTable_rows_core fields _ hri (asString_none_of_not_str _ htext) hne hfr

/-- Witness for the amended C10: a row with a numeric, a boolean, and a null
cell is kept, its cells stringified to "1", "true", "null". -/
theorem c10_cells_stringified_witness :
    jGet [("type", .str "table"), ("rows", .arr [.arr [.num 1, .bool true, .null]])] "type"
      = some (.str "table")
    ∧ jGet [("type", .str "table"), ("rows", .arr [.arr [.num 1, .bool true, .null]])] "rows"
      = some (.arr [.arr [.num 1, .bool true, .null]])
    ∧ ([JVal.arr [.num 1, .bool true, .null]].filterMap rowOfJVal)
      = [["1", "true", "null"]]
    ∧ normalizeContentBlock (.obj [("type", .str "table"),
        ("rows", .arr [.arr [.num 1, .bool true, .null]])])
      = some (.table ["列1", "列2", "列3"] [["1", "true", "null"]] none) := by
  refine ⟨rfl, rfl, by decide, ?_⟩
  rcases c10_cells_stringified.1
      [("type", .str "table"), ("rows", .arr [.arr [.num 1, .bool true, .null]])]
      [.arr [.num 1, .bool true, .null]] rfl rfl
      (by intro s h; cases h) (by decide) (by decide) with ⟨hs, hres⟩
  rw [show ([JVal.arr [.num 1, .bool true, .null]].filterMap rowOfJVal)
      = [["1", "true", "null"]] from by decide] at hres
  rw [hres]
  congr 1
  have hball : normalizeContentBlock (.obj [("type", .str "table"),
      ("rows", .arr [.arr [.num 1, .bool true, .null]])])
      = some (.table ["列1", "列2", "列3"] [["1", "true", "null"]] none) := by decide
  rw [hball] at hres
  cases hres
  rfl

/-- **C10 counterexample.** A table input that has BOTH an array-of-arrays
`rows` field and a markdown `text` field, with no usable headers: the
markdown fallback fires and **replaces** the stringified rows, so the
numeric cell `1` does not survive into the resulting block, contrary to the
claim as stated. -/
theorem c10_md_overwrite_counterexample :
    normalizeContentBlock (.obj [("type", .str "table"),
        ("rows", .arr [.arr [.num 1]]), ("text", .str "| A |\n| b |")])
      = some (.table ["A"] [["b"]] none)
    ∧ jsString (.num 1) = "1"
    ∧ normalizeContentBlock (.obj [("type", .str "table"),
        ("rows", .arr [.arr [.num 1]]), ("text", .str "| A |\n| b |")])
      ≠ some (.table ["A"] [["1"]] none) := by
  refine ⟨by decide, by decide, by decide⟩

/-! ## The lenient decoder: repairs, JSON parsing, schema, `parseDSLLenient` -/

/-- `List` prefix test (JavaScript `startsWith`). -/
def startsWithChars : List Char → List Char → Bool
  | [], _ => true
  | _ :: _, [] => false
  | p :: ps, c :: cs => p = c && startsWithChars ps cs

/-- `cleanJsonString` of `src/lib/dsl-parser.ts` (lines 18–33): trim, strip a
leading ```` ```json ```` or ```` ``` ```` fence, strip a trailing fence, trim. -/
def cleanJsonString (input : String) : String :=
  let cleaned := trimChars input.data
  let cleaned :=
    if startsWithChars "```json".data cleaned then cleaned.drop 7
    else if startsWithChars "```".data cleaned then cleaned.drop 3
    else cleaned
  let cleaned :=
    if startsWithChars "```".data.reverse cleaned.reverse then cleaned.take (cleaned.length - 3)
    else cleaned
  ⟨trimChars cleaned⟩

/-- Worker for the first replace of `tryFixJson`,
`/,(\s*[}\]])/g → '$1'`: `pending` holds a comma plus following whitespace
(reversed) that may belong to a match in progress. -/
def fixCommasAux : List Char → List Char → List Char
  | [], pending => pending.reverse
  | c :: rest, pending =>
    match pending with
    | [] =>
      if c = ',' then fixCommasAux rest [c]
      else c :: fixCommasAux rest []
    | _ =>
      if jsWhitespace c then fixCommasAux rest (c :: pending)
      else if c = '\x7d' ∨ c = ']' then (pending.reverse.drop 1) ++ c :: fixCommasAux rest []
      else if c = ',' then pending.reverse ++ fixCommasAux rest [c]
      else pending.reverse ++ c :: fixCommasAux rest []

/-- After the first quote following a candidate newline: the lookahead
`[^"]*$` under the `m` flag succeeds iff a line end (or the end of input)
is reached before the next quote. -/
def nlAfterQuote : List Char → Bool
  | [] => true
  | '"' :: _ => false
  | '\n' :: _ => true
  | _ :: rest => nlAfterQuote rest

/-- The lookahead `(?=[^"]*"[^"]*$)` of the second replace of `tryFixJson`:
some quote follows (possibly across lines — `[^"]` matches newlines), and
after it a line end comes before any further quote. -/
def nlCond : List Char → Bool
  | [] => false
  | '"' :: rest => nlAfterQuote rest
  | _ :: rest => nlCond rest

/-- Worker for the second replace of `tryFixJson`,
`/(?<!\\)\n(?=[^"]*"[^"]*$)/gm → '\\n'`: a newline not preceded by a
backslash and satisfying the lookahead is replaced by the two characters
`\` `n`; `prev` is the preceding source character. -/
def fixNewlinesAux : Option Char → List Char → List Char
  | _, [] => []
  | prev, c :: rest =>
    if c = '\n' ∧ prev ≠ some '\\' ∧ nlCond rest = true
    then '\\' :: 'n' :: fixNewlinesAux (some '\n') rest
    else c :: fixNewlinesAux (some c) rest

/-- `tryFixJson` of `src/lib/dsl-parser.ts` (lines 38–49): remove trailing
commas before closing brackets, then escape raw newlines that appear to lie
inside an unterminated string literal. -/
def tryFixJson (input : String) : String :=
  ⟨fixNewlinesAux none (fixCommasAux input.data [])⟩

/-- Match of `/"slides"\s*:\s*\[/` at the head of `cs`, returning the match
length. -/
def matchSlidesHere (cs : List Char) : Option Nat :=
  if startsWithChars "\"slides\"".data cs then
    let rest1 := cs.drop 8
    let ws1 := (rest1.takeWhile jsWhitespace).length
    match rest1.drop ws1 with
    | ':' :: rest2 =>
      let ws2 := (rest2.takeWhile jsWhitespace).length
      match rest2.drop ws2 with
      | '[' :: _ => some (8 + ws1 + 1 + ws2 + 1)
      | _ => none
    | _ => none
  else none

/-- Index just after the first match of `/"slides"\s*:\s*\[/` (the
`startIndex` of `tryFixTruncatedJson`). -/
def findSlidesStart : List Char → Nat → Option Nat
  | [], _ => none
  | c :: rest, i =>
    match matchSlidesHere (c :: rest) with
    | some len => some (i + len)
    | none => findSlidesStart rest (i + 1)

/-- The bracket/brace/string scan of `tryFixTruncatedJson` (lines 69–102):
returns the final `(bracketCount, braceCount, lastCompleteSlideEnd)`. -/
def truncScan : List Char → Nat → Int → Int → Bool → Bool →
    Option Nat → Int × Int × Option Nat
  | [], _, bk, br, _, _, lastEnd => (bk, br, lastEnd)
  | c :: rest, i, bk, br, inString, escapeNext, lastEnd =>
    if escapeNext then truncScan rest (i + 1) bk br inString false lastEnd
    else if c = '\\' then truncScan rest (i + 1) bk br inString true lastEnd
    else if c = '"' then truncScan rest (i + 1) bk br (!inString) false lastEnd
    else if inString then truncScan rest (i + 1) bk br inString false lastEnd
    else if c = '\x7b' then truncScan rest (i + 1) bk (br + 1) inString false lastEnd
    else if c = '\x7d' then
      truncScan rest (i + 1) bk (br - 1) inString false
        (if br - 1 = 0 ∧ bk = 1 then some i else lastEnd)
    else if c = '[' then truncScan rest (i + 1) (bk + 1) br inString false lastEnd
    else if c = ']' then truncScan rest (i + 1) (bk - 1) br inString false lastEnd
    else truncScan rest (i + 1) bk br inString false lastEnd

/-- `tryFixTruncatedJson` of `src/lib/dsl-parser.ts` (lines 55–115): find the
`"slides": [` marker, scan forward tracking string state and bracket/brace
depth, and on unbalanced input cut at the last complete slide object and
close the array and outer object with `]}`. -/
def tryFixTruncatedJson (input : String) : String :=
  match findSlidesStart input.data 0 with
  | none => input
  | some startIndex =>
    let st := truncScan (input.data.drop startIndex) startIndex 1 0 false false none
    if st.1 ≠ 0 ∨ st.2.1 ≠ 0 then
      match st.2.2 with
      | some lastEnd =>
        if 0 < lastEnd then ⟨(input.data.take (lastEnd + 1)) ++ ']' :: ['\x7d']⟩
        else input
      | none => input
    else input

/-- Index of the last occurrence of `c`. -/
def lastIndexOfChar (c : Char) (cs : List Char) : Option Nat :=
  (((cs.enum).filter fun p => p.2 = c).map Prod.fst).getLast?

/-- Scan for the first position where `/(\{[\s\S]*\}|\[[\s\S]*\])/` matches:
a `{` with some `}` strictly after it (greedy, to the last one), else a `[`
with some `]` strictly after it. -/
def extractFrom : List Char → Nat → Option Nat → Option Nat → Option (Nat × Nat)
  | [], _, _, _ => none
  | c :: rest, i, lastBrace, lastBracket =>
    if c = '\x7b' then
      match lastBrace with
      | some j => if i < j then some (i, j) else extractFrom rest (i + 1) lastBrace lastBracket
      | none => extractFrom rest (i + 1) lastBrace lastBracket
    else if c = '[' then
      match lastBracket with
      | some j => if i < j then some (i, j) else extractFrom rest (i + 1) lastBrace lastBracket
      | none => extractFrom rest (i + 1) lastBrace lastBracket
    else extractFrom rest (i + 1) lastBrace lastBracket

/-- The last-resort substring extraction of `parseDSLLenient` (line 569):
the first (and greedy) match of `(\{[\s\S]*\}|\[[\s\S]*\])`. -/
def extractJsonSubstring (s : String) : Option String :=
  match extractFrom s.data 0 (lastIndexOfChar '\x7d' s.data) (lastIndexOfChar ']' s.data) with
  | some (i, j) => some ⟨(s.data.take (j + 1)).drop i⟩
  | none => none

/-- JSON whitespace (`space`, tab, newline, carriage return). -/
def jsonWs (c : Char) : Bool := c = ' ' ∨ c = '\t' ∨ c = '\n' ∨ c = '\r'

/-- Skip JSON whitespace. -/
def skipJsonWs (cs : List Char) : List Char := cs.dropWhile jsonWs

/-- Hexadecimal digit value. -/
def hexVal (c : Char) : Option Nat :=
  if '0' ≤ c ∧ c ≤ '9' then some (c.toNat - '0'.toNat)
  else if 'a' ≤ c ∧ c ≤ 'f' then some (c.toNat - 'a'.toNat + 10)
  else if 'A' ≤ c ∧ c ≤ 'F' then some (c.toNat - 'A'.toNat + 10)
  else none

/-- JSON string-literal body (after the opening quote): standard escapes,
`\uXXXX` via `Char.ofNat` (lone surrogates are outside the model), and raw
control characters rejected as `JSON.parse` does. -/
def parseStringAux : List Char → List Char → Except String (String × List Char)
  | [], _ => .error "Unterminated string in JSON"
  | c :: rest, acc =>
    if c = '"' then .ok (⟨acc.reverse⟩, rest)
    else if c = '\\' then
      match rest with
      | [] => .error "Unterminated escape in JSON"
      | e :: rest2 =>
        if e = '"' then parseStringAux rest2 ('"' :: acc)
        else if e = '\\' then parseStringAux rest2 ('\\' :: acc)
        else if e = '/' then parseStringAux rest2 ('/' :: acc)
        else if e = 'b' then parseStringAux rest2 ('\x08' :: acc)
        else if e = 'f' then parseStringAux rest2 ('\x0c' :: acc)
        else if e = 'n' then parseStringAux rest2 ('\n' :: acc)
        else if e = 'r' then parseStringAux rest2 ('\r' :: acc)
        else if e = 't' then parseStringAux rest2 ('\t' :: acc)
        else if e = 'u' then
          match rest2 with
          | h1 :: h2 :: h3 :: h4 :: rest3 =>
            match hexVal h1, hexVal h2, hexVal h3, hexVal h4 with
            | some a, some b, some c2, some d =>
              parseStringAux rest3 (Char.ofNat (((a * 16 + b) * 16 + c2) * 16 + d) :: acc)
            | _, _, _, _ => .error "Bad unicode escape in JSON"
          | _ => .error "Bad unicode escape in JSON"
        else .error "Bad escape character in JSON"
    else if c.toNat < 0x20 then .error "Bad control character in JSON"
    else parseStringAux rest (c :: acc)

/-- JSON number literal.  Model restriction: integers only — decimal
fractions and exponents are rejected (no claim of this development
exercises non-integer numbers); leading-zero checks are omitted. -/
def parseNumberLit (neg : Bool) (cs : List Char) : Except String (JVal × List Char) :=
  let ds := cs.takeWhile fun c => '0' ≤ c ∧ c ≤ '9'
  if ds.isEmpty then .error "Invalid number in JSON"
  else
    match cs.drop ds.length with
    | '.' :: _ => .error "Fractional number outside model"
    | 'e' :: _ => .error "Exponent number outside model"
    | 'E' :: _ => .error "Exponent number outside model"
    | rest =>
      let n : Nat := ds.foldl (fun acc c => acc * 10 + (c.toNat - '0'.toNat)) 0
      .ok (.num (if neg then -(n : Int) else (n : Int)), rest)

/-- One task of the recursive-descent JSON parser: a value, the element loop
of an array, or the member loop of an object (accumulators reversed). -/
inductive JPTask
  | value (cs : List Char)
  | elems (cs : List Char) (acc : List JVal) (first : Bool)
  | membs (cs : List Char) (acc : List (String × JVal)) (first : Bool)

/-- Recursive-descent JSON parser, structurally recursive on a fuel that
decreases on every step (one unit per value, element, or member), so the
definition evaluates inside the kernel; `jsonParse` supplies ample fuel. -/
def jpRun : Nat → JPTask → Except String (JVal × List Char)
  | 0, _ => .error "JSON recursion exceeds model fuel"
  | fuel + 1, .value cs =>
    match skipJsonWs cs with
    | [] => .error "Unexpected end of JSON input"
    | c :: rest =>
      if c = '\x7b' then jpRun fuel (.membs (skipJsonWs rest) [] true)
      else if c = '[' then jpRun fuel (.elems (skipJsonWs rest) [] true)
      else if c = '"' then
        match parseStringAux rest [] with
        | .ok (s, rest2) => .ok (.str s, rest2)
        | .error e => .error e
      else if c = '-' then parseNumberLit true rest
      else if '0' ≤ c ∧ c ≤ '9' then parseNumberLit false (c :: rest)
      else if startsWithChars "true".data (c :: rest) then .ok (.bool true, (c :: rest).drop 4)
      else if startsWithChars "false".data (c :: rest) then .ok (.bool false, (c :: rest).drop 5)
      else if startsWithChars "null".data (c :: rest) then .ok (.null, (c :: rest).drop 4)
      else .error "Unexpected token in JSON"
  | fuel + 1, .elems cs acc first =>
    match cs with
    | ']' :: rest =>
      if first then .ok (.arr [], rest)
      else
        match jpRun fuel (.value cs) with
        | .ok _ => .error "Unreachable element state"
        | .error e => .error e
    | _ =>
      match jpRun fuel (.value cs) with
      | .ok (v, rest1) =>
        match skipJsonWs rest1 with
        | ',' :: rest2 => jpRun fuel (.elems (skipJsonWs rest2) (v :: acc) false)
        | ']' :: rest2 => .ok (.arr (v :: acc).reverse, rest2)
        | _ => .error "Expected comma or closing bracket in JSON array"
      | .error e => .error e
  | fuel + 1, .membs cs acc first =>
    match cs with
    | '\x7d' :: rest =>
      if first then .ok (.obj [], rest)
      else .error "Trailing comma in JSON object"
    | '"' :: rest =>
      match parseStringAux rest [] with
      | .ok (k, rest1) =>
        match skipJsonWs rest1 with
        | ':' :: rest2 =>
          match jpRun fuel (.value rest2) with
          | .ok (v, rest3) =>
            match skipJsonWs rest3 with
            | ',' :: rest4 => jpRun fuel (.membs (skipJsonWs rest4) ((k, v) :: acc) false)
            | '\x7d' :: rest4 => .ok (.obj ((k, v) :: acc).reverse, rest4)
            | _ => .error "Expected comma or closing brace in JSON object"
          | .error e => .error e
        | _ => .error "Expected colon in JSON object"
      | .error e => .error e
    | _ => .error "Expected property name in JSON object"

/-- `JSON.parse` (modelled): parse one value and require only whitespace
after it. -/
def jsonParse (s : String) : Except String JVal :=
  match jpRun (4 * s.length + 16) (.value s.data) with
  | .ok (v, rest) =>
    if (skipJsonWs rest).isEmpty then .ok v
    else .error "Unexpected non-whitespace after JSON value"
  | .error e => .error e

/-! ## The strict zod schema (`src/lib/dsl-schema.ts`) -/

/-- `z.array(z.string().min(lo).max(hi))`. -/
def strictStrList (lo hi : Nat) : List JVal → Option (List String)
  | [] => some []
  | .str s :: rest =>
    if lo ≤ s.length ∧ s.length ≤ hi then (strictStrList lo hi rest).map (s :: ·) else none
  | _ => none

/-- `z.array(z.string())` (no length bounds). -/
def strictStrPlainList : List JVal → Option (List String)
  | [] => some []
  | .str s :: rest => (strictStrPlainList rest).map (s :: ·)
  | _ => none

/-- `z.array(z.array(z.string()))`. -/
def strictRowList : List JVal → Option (List (List String))
  | [] => some []
  | .arr cells :: rest =>
    match strictStrPlainList cells with
    | some row => (strictRowList rest).map (row :: ·)
    | none => none
  | _ => none

/-- `z.string().optional()`: absent is fine, present must be a string. -/
def strictOptString : Option JVal → Option (Option String)
  | none => some none
  | some (.str s) => some (some s)
  | some _ => none

/-- `z.string().max(maxLen).optional()`. -/
def strictOptBoundedString (maxLen : Nat) : Option JVal → Option (Option String)
  | none => some none
  | some (.str s) => if s.length ≤ maxLen then some (some s) else none
  | some _ => none

/-- `contentBlockSchema`: the discriminated union of the six block schemas
of `src/lib/dsl-schema.ts`. -/
def strictBlock (v : JVal) : Option ContentBlock :=
  match v with
  | .obj fields =>
    match jGet fields "type" with
    | some (.str t) =>
      if t = "paragraph" then
        match jGet fields "text" with
        | some (.str s) =>
          if 1 ≤ s.length ∧ s.length ≤ DSL_LIMITS.MAX_PARAGRAPH_LENGTH then
            match jGet fields "emphasis" with
            | none => some (.paragraph s none)
            | some (.str e) =>
              if e = "normal" then some (.paragraph s (some .normal))
              else if e = "highlight" then some (.paragraph s (some .highlight))
              else if e = "muted" then some (.paragraph s (some .muted))
              else none
            | some _ => none
          else none
        | _ => none
      else if t = "bullets" ∨ t = "numbered" then
        match jGet fields "items" with
        | some (.arr xs) =>
          match strictStrList 1 DSL_LIMITS.MAX_LIST_ITEM_LENGTH xs with
          | some items =>
            if 1 ≤ items.length ∧ items.length ≤ DSL_LIMITS.MAX_LIST_ITEMS then
              some (if t = "bullets" then .bullets items else .numbered items)
            else none
          | none => none
        | _ => none
      else if t = "code" then
        match jGet fields "language" with
        | some (.str lang) =>
          if 1 ≤ lang.length then
            match jGet fields "lines" with
            | some (.arr xs) =>
              match strictStrPlainList xs with
              | some lines =>
                if 1 ≤ lines.length ∧ lines.length ≤ DSL_LIMITS.MAX_CODE_LINES then
                  match strictOptString (jGet fields "caption") with
                  | some caption => some (.code lang lines caption)
                  | none => none
                else none
              | none => none
            | _ => none
          else none
        | _ => none
      else if t = "table" then
        match jGet fields "headers" with
        | some (.arr hs) =>
          match strictStrPlainList hs with
          | some headers =>
            if 1 ≤ headers.length ∧ headers.length ≤ DSL_LIMITS.MAX_TABLE_COLUMNS then
              match jGet fields "rows" with
              | some (.arr rs) =>
                match strictRowList rs with
                | some rows =>
                  if 1 ≤ rows.length ∧ rows.length ≤ DSL_LIMITS.MAX_TABLE_ROWS then
                    match strictOptString (jGet fields "caption") with
                    | some caption => some (.table headers rows caption)
                    | none => none
                  else none
                | none => none
              | _ => none
            else none
          | none => none
        | _ => none
      else if t = "quote" then
        match jGet fields "text" with
        | some (.str s) =>
          if 1 ≤ s.length ∧ s.length ≤ DSL_LIMITS.MAX_QUOTE_LENGTH then
            match strictOptString (jGet fields "author") with
            | some author => some (.quote s author)
            | none => none
          else none
        | _ => none
      else none
    | _ => none
  | _ => none

/-- The five `slideLayoutSchema` literals. -/
def parseLayout (l : String) : Option SlideLayout :=
  if l = "title-only" then some .titleOnly
  else if l = "title-content" then some .titleContent
  else if l = "two-column" then some .twoColumn
  else if l = "section" then some .sectionPage
  else if l = "comparison" then some .comparison
  else none

/-- `z.array(contentBlockSchema)`, traversing all elements. -/
def strictBlockList : List JVal → Option (List ContentBlock)
  | [] => some []
  | v :: rest =>
    match strictBlock v with
    | some b => (strictBlockList rest).map (b :: ·)
    | none => none

/-- `z.array(contentBlockSchema).max(maxLen).optional()`. -/
def strictOptContent (maxLen : Nat) : Option JVal → Option (Option (List ContentBlock))
  | none => some none
  | some (.arr xs) =>
    match strictBlockList xs with
    | some bs => if bs.length ≤ maxLen then some (some bs) else none
    | none => none
  | some _ => none

/-- `slideDSLSchema` of `src/lib/dsl-schema.ts`. -/
def strictSlide (v : JVal) : Option SlideDSL :=
  match v with
  | .obj fields =>
    match jGet fields "layout" with
    | some (.str l) =>
      match parseLayout l with
      | some layout =>
        match strictOptBoundedString DSL_LIMITS.MAX_TITLE_LENGTH (jGet fields "title") with
        | some title =>
          match strictOptBoundedString DSL_LIMITS.MAX_SUBTITLE_LENGTH (jGet fields "subtitle") with
          | some subtitle =>
            match strictOptContent DSL_LIMITS.MAX_CONTENT_BLOCKS_PER_SLIDE
                (jGet fields "content") with
            | some content =>
              match strictOptContent DSL_LIMITS.MAX_CONTENT_BLOCKS_PER_COLUMN
                  (jGet fields "leftContent") with
              | some leftContent =>
                match strictOptContent DSL_LIMITS.MAX_CONTENT_BLOCKS_PER_COLUMN
                    (jGet fields "rightContent") with
                | some rightContent =>
                  match strictOptString (jGet fields "notes") with
                  | some notes =>
                    some ⟨layout, title, subtitle, content, leftContent, rightContent, notes⟩
                  | none => none
                | none => none
              | none => none
            | none => none
          | none => none
        | none => none
      | none => none
    | _ => none
  | _ => none

/-- `z.array(slideDSLSchema)`. -/
def strictSlideList : List JVal → Option (List SlideDSL)
  | [] => some []
  | v :: rest =>
    match strictSlide v with
    | some s => (strictSlideList rest).map (s :: ·)
    | none => none

/-- `presentationDSLSchema.safeParse` of `src/lib/dsl-schema.ts`: an object
with a non-empty `slides` array of valid slides. -/
def presentationDSLSchemaParse (v : JVal) : Option PresentationDSL :=
  match v with
  | .obj fields =>
    match jGet fields "slides" with
    | some (.arr xs) =>
      match strictSlideList xs with
      | some slides => if 1 ≤ slides.length then some ⟨slides⟩ else none
      | none => none
    | _ => none
  | _ => none

/-! ## `parseDSLLenient` (lines 549–699) -/

/-- Result type `DSLParseResult` of `src/types/slide-dsl.ts` (the lenient
path only ever carries a string or null in `details`). -/
inductive DSLParseResult
  | success (data : PresentationDSL)
  | failure (error : String) (details : Option String)
deriving DecidableEq

/-- The per-slide layout coercion of the lenient path (lines 650–658):
any unrecognized or missing layout becomes `title-content`. -/
def coerceLayout : Option JVal → SlideLayout
  | some (.str l) =>
    match parseLayout l with
    | some layout => layout
    | none => .titleContent
  | _ => .titleContent

/-- One content array of the lenient slide construction: mapped through
`normalizeContentBlock`, dropping failures; non-arrays give `undefined`. -/
def coerceContent : Option JVal → Option (List ContentBlock)
  | some (.arr xs) => some (xs.filterMap normalizeContentBlock)
  | _ => none

/-- The lenient slide construction (lines 660–675). -/
def coerceSlide (fields : List (String × JVal)) : SlideDSL :=
  { layout := coerceLayout (jGet fields "layout")
    title := asString (jGet fields "title")
    subtitle := asString (jGet fields "subtitle")
    content := coerceContent (jGet fields "content")
    leftContent := coerceContent (jGet fields "leftContent")
    rightContent := coerceContent (jGet fields "rightContent")
    notes := asString (jGet fields "notes") }

/-- The `typeof slide === 'object' && slide !== null` filter of the lenient
loop: JSON arrays are JavaScript objects with no string-keyed properties,
so they are kept as field-less slides; scalars and `null` are skipped. -/
def lenientKeep : JVal → Option SlideDSL
  | .obj fields => some (coerceSlide fields)
  | .arr _ => some (coerceSlide [])
  | _ => none

/-- The slides-array stage of `parseDSLLenient` (lines 622–698): empty array
fails; strict schema success returns as-is; otherwise the lenient per-slide
coercion runs and the result is re-paginated by `truncatePresentation`. -/
def lenientSlides (xs : List JVal) : DSLParseResult :=
  if xs.isEmpty then .failure "slides数组为空" none
  else
    match presentationDSLSchemaParse (.obj [("slides", .arr xs)]) with
    | some p => .success p
    | none =>
      let validSlides := xs.filterMap lenientKeep
      if validSlides.isEmpty then .failure "没有有效的幻灯片" (some "所有幻灯片都无法解析")
      else .success (truncatePresentation ⟨validSlides⟩)

/-- The structure dispatch of `parseDSLLenient` (lines 593–620): a bare
array, an object with a `slides` key (which must be an array), or failure. -/
def lenientHandle (jsonData : JVal) : DSLParseResult :=
  match jsonData with
  | .arr xs => lenientSlides xs
  | .obj fields =>
    match jGet fields "slides" with
    | some (.arr xs) => lenientSlides xs
    | some _ => .failure "slides必须是数组" none
    | none => .failure "无法识别的JSON结构" (some "需要 \x7b slides: [...] \x7d 或直接的数组格式")
  | _ => .failure "无法识别的JSON结构" (some "需要 \x7b slides: [...] \x7d 或直接的数组格式")

/-- `parseDSLLenient` of `src/lib/dsl-parser.ts` (lines 549–699): clean the
input, then try direct parse, comma/newline repair, truncation repair, and
bracket-substring extraction (with truncation repair); on total failure the
returned `details` carries the message of the original parse error `e`. -/
def parseDSLLenient (input : String) : DSLParseResult :=
  match jsonParse (cleanJsonString input) with
  | .ok jsonData => lenientHandle jsonData
  | .error e =>
    match jsonParse (tryFixJson (cleanJsonString input)) with
    | .ok jsonData => lenientHandle jsonData
    | .error _ =>
      match jsonParse (tryFixTruncatedJson (cleanJsonString input)) with
      | .ok jsonData => lenientHandle jsonData
      | .error _ =>
        match extractJsonSubstring (cleanJsonString input) with
        | some m =>
          match jsonParse (tryFixTruncatedJson m) with
          | .ok jsonData => lenientHandle jsonData
          | .error _ => .failure "JSON解析失败" (some e)
        | none => .failure "JSON解析失败" (some e)

/-- **C9.** If the direct parse fails with message `e` and every repair
attempt (comma/newline fixup, truncation repair, bracket-substring
extraction) also fails to parse, `parseDSLLenient` returns a failure value
whose `details` carries the original error `e` — it never throws. -/
theorem c9_unparseable_details (input e : String)
    (h1 : jsonParse (cleanJsonString input) = .error e)
    (h2 : ∀ v, jsonParse (tryFixJson (cleanJsonString input)) ≠ .ok v)
    (h3 : ∀ v, jsonParse (tryFixTruncatedJson (cleanJsonString input)) ≠ .ok v)
    (h4 : ∀ m v, extractJsonSubstring (cleanJsonString input) = some m →
      jsonParse (tryFixTruncatedJson m) ≠ .ok v) :
    parseDSLLenient input = .failure "JSON解析失败" (some e) := by
  unfold parseDSLLenient
  rw [h1]
  cases hf : jsonParse (tryFixJson (cleanJsonString input)) with
  | ok v => exact absurd hf (h2 v)
  | error e2 =>
    cases ht : jsonParse (tryFixTruncatedJson (cleanJsonString input)) with
    | ok v => exact absurd ht (h3 v)
    | error e3 =>
      cases hx : extractJsonSubstring (cleanJsonString input) with
      | none => rfl
      | some m =>
        show (match jsonParse (tryFixTruncatedJson m) with
          | Except.ok jsonData => lenientHandle jsonData
          | Except.error a => DSLParseResult.failure "JSON解析失败" (some e)) = _
        cases hm : jsonParse (tryFixTruncatedJson m) with
        | ok v => exact absurd hm (h4 m v hx)
        | error e4 => rfl

/-- Witness for C9: the input `"hello"` defeats every repair; the failure
carries the direct parse's error message. -/
theorem c9_unparseable_details_witness :
    jsonParse (cleanJsonString "hello") = .error "Unexpected token in JSON"
    ∧ extractJsonSubstring (cleanJsonString "hello") = none
    ∧ parseDSLLenient "hello" = .failure "JSON解析失败" (some "Unexpected token in JSON") := by
  refine ⟨by rfl, by rfl, ?_⟩
  exact c9_unparseable_details "hello" "Unexpected token in JSON" (by rfl)
    (fun v h => by
      rw [show jsonParse (tryFixJson (cleanJsonString "hello"))
          = .error "Unexpected token in JSON" from by rfl] at h
      cases h)
    (fun v h => by
      rw [show jsonParse (tryFixTruncatedJson (cleanJsonString "hello"))
          = .error "Unexpected token in JSON" from by rfl] at h
      cases h)
    (fun m v hm => by
      rw [show extractJsonSubstring (cleanJsonString "hello") = none from by rfl] at hm
      simp at hm)

/-- **C3 (amended).** Truncation recovery: when the direct parse and the
comma/newline repair both fail but the bracket-count truncation repair
yields a parseable object whose non-empty `slides` array passes the strict
schema, `parseDSLLenient` succeeds with exactly those validated slides. -/
theorem c3_truncation_repair (input : String) (flds : List (String × JVal))
    (sl : List JVal) (p : PresentationDSL)
    (h1 : ∀ v, jsonParse (cleanJsonString input) ≠ .ok v)
    (h2 : ∀ v, jsonParse (tryFixJson (cleanJsonString input)) ≠ .ok v)
    (h3 : jsonParse (tryFixTruncatedJson (cleanJsonString input)) = .ok (.obj flds))
    (h4 : jGet flds "slides" = some (.arr sl))
    (h5 : sl ≠ [])
    (h6 : presentationDSLSchemaParse (.obj [("slides", .arr sl)]) = some p) :
    parseDSLLenient input = .success p := by
  unfold parseDSLLenient
  cases hc : jsonParse (cleanJsonString input) with
  | ok v => exact absurd hc (h1 v)
  | error e =>
    cases hf : jsonParse (tryFixJson (cleanJsonString input)) with
    | ok v => exact absurd hf (h2 v)
    | error e2 =>
      show (match jsonParse (tryFixTruncatedJson (cleanJsonString input)) with
        | Except.ok jsonData => lenientHandle jsonData
        | Except.error a =>
          match extractJsonSubstring (cleanJsonString input) with
          | some m =>
            match jsonParse (tryFixTruncatedJson m) with
            | Except.ok jsonData => lenientHandle jsonData
            | Except.error a => DSLParseResult.failure "JSON解析失败" (some e)
          | none => DSLParseResult.failure "JSON解析失败" (some e)) = _
      rw [h3]
      show lenientHandle (.obj flds) = _
      unfold lenientHandle
      show (match jGet flds "slides" with
        | some (JVal.arr xs) => lenientSlides xs
        | some val => DSLParseResult.failure "slides必须是数组" none
        | none => DSLParseResult.failure "无法识别的JSON结构"
            (some "需要 \x7b slides: [...] \x7d 或直接的数组格式")) = _
      rw [h4]
      show lenientSlides sl = _
      unfold lenientSlides
      rw [if_neg (by simpa [List.isEmpty_iff] using h5)]
      show (match presentationDSLSchemaParse (.obj [("slides", .arr sl)]) with
        | some p2 => DSLParseResult.success p2
        | none =>
          if (sl.filterMap lenientKeep).isEmpty = true then
            DSLParseResult.failure "没有有效的幻灯片" (some "所有幻灯片都无法解析")
          else DSLParseResult.success (truncatePresentation ⟨sl.filterMap lenientKeep⟩)) = _
      rw [h6]

/-- The spec's truncated-input example (`§8`, scenario 2). -/
def c3specInput : String :=
  "\x7b\"slides\":[\x7b\"layout\":\"title-content\",\"title\":\"X\",\"content\":[\x7b\"type\":\"paragraph\",\"text\":\"hi\"\x7d]\x7d,\x7b\"layout\":\"title-content\",\"title\":\"Y\",\"content\""

/-- The slide object the truncation repair recovers from `c3specInput`. -/
def c3specSlideV : JVal :=
  .obj [("layout", .str "title-content"), ("title", .str "X"),
    ("content", .arr [.obj [("type", .str "paragraph"), ("text", .str "hi")]])]

/-- The strictly-validated slide of the spec's truncation example. -/
def c3specSlide : SlideDSL :=
  { layout := .titleContent, title := some "X",
    content := some [.paragraph "hi" none] }

/-- Witness for the amended C3: the spec's own truncated example recovers
exactly one slide titled `X`. -/
theorem c3_truncation_repair_witness :
    jsonParse (tryFixTruncatedJson (cleanJsonString c3specInput))
      = .ok (.obj [("slides", .arr [c3specSlideV])])
    ∧ presentationDSLSchemaParse (.obj [("slides", .arr [c3specSlideV])])
      = some ⟨[c3specSlide]⟩
    ∧ parseDSLLenient c3specInput = .success ⟨[c3specSlide]⟩
    ∧ (⟨[c3specSlide]⟩ : PresentationDSL).slides.length = 1 := by
  refine ⟨by rfl, by rfl, ?_, by decide⟩
  exact c3_truncation_repair c3specInput [("slides", .arr [c3specSlideV])]
    [c3specSlideV] ⟨[c3specSlide]⟩
    (fun v h => by
      rw [show jsonParse (cleanJsonString c3specInput)
          = .error "Expected colon in JSON object" from by rfl] at h
      cases h)
    (fun v h => by
      rw [show jsonParse (tryFixJson (cleanJsonString c3specInput))
          = .error "Expected colon in JSON object" from by rfl] at h
      cases h)
    (by rfl) (by rfl) (by simp) (by rfl)

/-- A valid two-slide document whose first slide holds a 13-item bullets
block (syntactically valid but beyond the strict schema's 6-item cap). -/
def c3docTrunc : String :=
  "\x7b\"slides\":[\x7b\"layout\":\"title-content\",\"title\":\"T\",\"content\":[\x7b\"type\":\"bullets\",\"items\":[\"a\",\"a\",\"a\",\"a\",\"a\",\"a\",\"a\",\"a\",\"a\",\"a\",\"a\",\"a\",\"a\"]\x7d]\x7d,\x7b\"layout\":\"title-content\",\"title\":\"Y\",\"content\""

/-- The rest of the untruncated document (cut mid-way through slide 2). -/
def c3docTail : String := ":[\x7b\"type\":\"paragraph\",\"text\":\"hi\"\x7d]\x7d]\x7d"

/-- The untruncated two-slide document. -/
def c3docFull : String := c3docTrunc ++ c3docTail

/-- Slide 1 of `c3docFull` as a parsed value. -/
def c3slide1V : JVal :=
  .obj [("layout", .str "title-content"), ("title", .str "T"),
    ("content", .arr [.obj [("type", .str "bullets"),
      ("items", .arr (List.replicate 13 (.str "a")))]])]

/-- Slide 2 of `c3docFull` as a parsed value. -/
def c3slide2V : JVal :=
  .obj [("layout", .str "title-content"), ("title", .str "Y"),
    ("content", .arr [.obj [("type", .str "paragraph"), ("text", .str "hi")]])]

/-- First output slide actually produced for the truncated document. -/
def c3out1 : SlideDSL :=
  { layout := .titleContent, title := some "T (1/2)",
    content := some [.bullets (List.replicate 6 "a")] }

/-- Second output slide actually produced for the truncated document. -/
def c3out2 : SlideDSL :=
  { layout := .titleContent, title := some "T (2/2)",
    content := some [.bullets (List.replicate 6 "a"), .bullets ["a"]] }

/-- **C3 counterexample.** `c3docFull` is a syntactically valid
`{"slides":[...]}` document with exactly two slide objects; `c3docTrunc`
cuts it strictly after the first slide object completes.  The lenient
decoder succeeds on the truncated text, but — because the recovered slide
fails strict validation (13 bullet items) — it re-paginates the content and
returns **two** slides with rewritten titles, not "exactly the first k = 1
slides of the untruncated document". -/
theorem c3_truncation_counterexample :
    c3docFull = c3docTrunc ++ c3docTail
    ∧ jsonParse c3docFull = .ok (.obj [("slides", .arr [c3slide1V, c3slide2V])])
    ∧ parseDSLLenient c3docTrunc = .success ⟨[c3out1, c3out2]⟩
    ∧ (⟨[c3out1, c3out2]⟩ : PresentationDSL).slides.length ≠ 1
    ∧ c3out1.title ≠ some "T" := by
  refine ⟨rfl, by rfl, by rfl, by decide, by decide⟩
